import Mathlib

/-!
# poloniex-api: request signing and response normalisation

A shallow embedding of the request-signing pipeline (`client.go`, `signature.go`),
of the order-book / 24-hour-volume normalisers (`poloniex-api.go`, `conv.go`), of the
result of `ApiPrivateCancel` and of the parameters of the order methods (`private.go`).

Conventions of the embedding

* A Go `string` is a Lean `String` (the model is restricted to valid UTF-8);
  a Go `[]byte` is a `List Nat` of values below 256.
* Machine words are `Nat` with explicit reduction modulo `2^64`.
* A Go `map[string]T` is an association list in which the first binding of a
  key is the binding of that key; `range` visits every key once, in the order
  of the list. The order of the list stands for the (unspecified) iteration
  order of the Go map, so a statement proved for every list is proved for every
  iteration order.
* A Go function that can panic returns `Outcome`; its Go results (value and
  `error`) are returned as they are, a `nil` error being `none`.
-/

namespace Poloniex

/-! ## Bytes and hexadecimal (`encoding/hex`) -/

/-- UTF-8 encoding of one code point, the bytes Go stores for it in a `string`. -/
def utf8Char (c : Char) : List Nat :=
  let n := c.toNat
  if n < 0x80 then [n]
  else if n < 0x800 then [0xC0 + n / 64, 0x80 + n % 64]
  else if n < 0x10000 then [0xE0 + n / 4096, 0x80 + (n / 64) % 64, 0x80 + n % 64]
  else [0xF0 + n / 262144, 0x80 + (n / 4096) % 64, 0x80 + (n / 64) % 64, 0x80 + n % 64]

/-- The conversion `[]byte(s)`. -/
def bytesOf (s : String) : List Nat :=
  s.data.flatMap utf8Char

/-- The table `hextable` of `encoding/hex`. -/
def hextable : List Char :=
  ['0', '1', '2', '3', '4', '5', '6', '7', '8', '9', 'a', 'b', 'c', 'd', 'e', 'f']

/-- The two characters `hextable[v>>4]`, `hextable[v&0x0f]` written for one byte. -/
def hexByte (v : Nat) : List Char :=
  [hextable.getD (v / 16 % 16) '0', hextable.getD (v % 16) '0']

/-- The function `hex.EncodeToString`. -/
def hexEncodeToString (src : List Nat) : String :=
  String.mk (src.flatMap hexByte)

/-! ## SHA-512 (`crypto/sha512`, FIPS 180-4) -/

namespace Sha512

/-- Addition of 64-bit words. -/
def add64 (a b : Nat) : Nat := (a + b) % 2 ^ 64

/-- Rotation to the right of a 64-bit word. -/
def rotr (x n : Nat) : Nat := ((x >>> n) ||| (x <<< (64 - n))) % 2 ^ 64

def bigSigma0 (x : Nat) : Nat := rotr x 28 ^^^ rotr x 34 ^^^ rotr x 39
def bigSigma1 (x : Nat) : Nat := rotr x 14 ^^^ rotr x 18 ^^^ rotr x 41
def smallSigma0 (x : Nat) : Nat := rotr x 1 ^^^ rotr x 8 ^^^ (x >>> 7)
def smallSigma1 (x : Nat) : Nat := rotr x 19 ^^^ rotr x 61 ^^^ (x >>> 6)

def ch (x y z : Nat) : Nat := (x &&& y) ^^^ ((2 ^ 64 - 1 - x % 2 ^ 64) &&& z)
def maj (x y z : Nat) : Nat := (x &&& y) ^^^ (x &&& z) ^^^ (y &&& z)

/-- The eighty round constants. -/
def K : List Nat := [
  0x428a2f98d728ae22, 0x7137449123ef65cd, 0xb5c0fbcfec4d3b2f, 0xe9b5dba58189dbbc,
  0x3956c25bf348b538, 0x59f111f1b605d019, 0x923f82a4af194f9b, 0xab1c5ed5da6d8118,
  0xd807aa98a3030242, 0x12835b0145706fbe, 0x243185be4ee4b28c, 0x550c7dc3d5ffb4e2,
  0x72be5d74f27b896f, 0x80deb1fe3b1696b1, 0x9bdc06a725c71235, 0xc19bf174cf692694,
  0xe49b69c19ef14ad2, 0xefbe4786384f25e3, 0x0fc19dc68b8cd5b5, 0x240ca1cc77ac9c65,
  0x2de92c6f592b0275, 0x4a7484aa6ea6e483, 0x5cb0a9dcbd41fbd4, 0x76f988da831153b5,
  0x983e5152ee66dfab, 0xa831c66d2db43210, 0xb00327c898fb213f, 0xbf597fc7beef0ee4,
  0xc6e00bf33da88fc2, 0xd5a79147930aa725, 0x06ca6351e003826f, 0x142929670a0e6e70,
  0x27b70a8546d22ffc, 0x2e1b21385c26c926, 0x4d2c6dfc5ac42aed, 0x53380d139d95b3df,
  0x650a73548baf63de, 0x766a0abb3c77b2a8, 0x81c2c92e47edaee6, 0x92722c851482353b,
  0xa2bfe8a14cf10364, 0xa81a664bbc423001, 0xc24b8b70d0f89791, 0xc76c51a30654be30,
  0xd192e819d6ef5218, 0xd69906245565a910, 0xf40e35855771202a, 0x106aa07032bbd1b8,
  0x19a4c116b8d2d0c8, 0x1e376c085141ab53, 0x2748774cdf8eeb99, 0x34b0bcb5e19b48a8,
  0x391c0cb3c5c95a63, 0x4ed8aa4ae3418acb, 0x5b9cca4f7763e373, 0x682e6ff3d6b2b8a3,
  0x748f82ee5defb2fc, 0x78a5636f43172f60, 0x84c87814a1f0ab72, 0x8cc702081a6439ec,
  0x90befffa23631e28, 0xa4506cebde82bde9, 0xbef9a3f7b2c67915, 0xc67178f2e372532b,
  0xca273eceea26619c, 0xd186b8c721c0c207, 0xeada7dd6cde0eb1e, 0xf57d4f7fee6ed178,
  0x06f067aa72176fba, 0x0a637dc5a2c898a6, 0x113f9804bef90dae, 0x1b710b35131c471b,
  0x28db77f523047d84, 0x32caab7b40c72493, 0x3c9ebe0a15c9bebc, 0x431d67c49c100d4c,
  0x4cc5d4becb3e42b6, 0x597f299cfc657e2a, 0x5fcb6fab3ad6faec, 0x6c44198c4a475817]

/-- The chaining value: eight 64-bit words. -/
structure State where
  a : Nat
  b : Nat
  c : Nat
  d : Nat
  e : Nat
  f : Nat
  g : Nat
  h : Nat
  deriving DecidableEq, Repr

/-- The initial hash value. -/
def init : State :=
  { a := 0x6a09e667f3bcc908, b := 0xbb67ae8584caa73b, c := 0x3c6ef372fe94f82b,
    d := 0xa54ff53a5f1d36f1, e := 0x510e527fade682d1, f := 0x9b05688c2b3e6c1f,
    g := 0x1f83d9abfb41bd6b, h := 0x5be0cd19137e2179 }

/-- Big-endian value of a run of bytes. -/
def beWord (bs : List Nat) : Nat := bs.foldl (fun acc b => acc * 256 + b % 256) 0

/-- Big-endian bytes of a word, `n` of them. -/
def beBytes : Nat → Nat → List Nat
  | 0, _ => []
  | n + 1, w => (w / 256 ^ n) % 256 :: beBytes n w

/-- The padded message: the bit `1`, zeros up to 112 modulo 128, the bit length on 16 bytes. -/
def pad (msg : List Nat) : List Nat :=
  msg ++ [0x80] ++ List.replicate ((128 - (msg.length + 17) % 128) % 128) 0
    ++ beBytes 16 (8 * msg.length)

/-- The first `n` blocks of 128 bytes. -/
def blocks : Nat → List Nat → List (List Nat)
  | 0, _ => []
  | n + 1, bs => bs.take 128 :: blocks n (bs.drop 128)

/-- The sixteen words of a block. -/
def blockWords (blk : List Nat) : List Nat :=
  (List.range 16).map fun i => beWord ((blk.drop (8 * i)).take 8)

/-- One more word of the message schedule. -/
def extend (w : List Nat) : List Nat :=
  let i := w.length
  w ++ [add64 (add64 (smallSigma1 (w.getD (i - 2) 0)) (w.getD (i - 7) 0))
          (add64 (smallSigma0 (w.getD (i - 15) 0)) (w.getD (i - 16) 0))]

/-- The eighty words of the message schedule. -/
def schedule (blk : List Nat) : List Nat :=
  Nat.iterate extend 64 (blockWords blk)

/-- One round of the compression function. -/
def round (s : State) (kw : Nat × Nat) : State :=
  let t1 := add64 (add64 (add64 s.h (bigSigma1 s.e)) (add64 (ch s.e s.f s.g) kw.1)) kw.2
  let t2 := add64 (bigSigma0 s.a) (maj s.a s.b s.c)
  { a := add64 t1 t2, b := s.a, c := s.b, d := s.c,
    e := add64 s.d t1, f := s.e, g := s.f, h := s.g }

/-- The compression function: eighty rounds, then the feed-forward. -/
def compress (s : State) (blk : List Nat) : State :=
  let r := (K.zip (schedule blk)).foldl round s
  { a := add64 s.a r.a, b := add64 s.b r.b, c := add64 s.c r.c, d := add64 s.d r.d,
    e := add64 s.e r.e, f := add64 s.f r.f, g := add64 s.g r.g, h := add64 s.h r.h }

/-- The digest bytes of a chaining value. -/
def digest (s : State) : List Nat :=
  beBytes 8 s.a ++ beBytes 8 s.b ++ beBytes 8 s.c ++ beBytes 8 s.d
    ++ beBytes 8 s.e ++ beBytes 8 s.f ++ beBytes 8 s.g ++ beBytes 8 s.h

/-- The function `sha512.Sum512`, as `New`, `Write`, `Sum(nil)` compute it. -/
def sum (msg : List Nat) : List Nat :=
  let p := pad msg
  digest ((blocks (p.length / 128) p).foldl compress init)

end Sha512

/-! ## Go maps -/

/-- A Go `map[string]α`: an association list read through its first binding of a key. -/
abbrev GoMap (α : Type) := List (String × α)

namespace GoMap

/-- The lookup `m[k]`, with `none` for a missing key. -/
def get {α : Type} (m : GoMap α) (k : String) : Option α :=
  match m with
  | [] => none
  | (k', v) :: rest => if k' = k then some v else get rest k

/-- The assignment `m[k] = v`. -/
def set {α : Type} (m : GoMap α) (k : String) (v : α) : GoMap α :=
  match m with
  | [] => [(k, v)]
  | (k', v') :: rest => if k' = k then (k, v) :: rest else (k', v') :: set rest k v

/-- The bindings `range m` visits: each key once, with its value. -/
def entries {α : Type} : GoMap α → List (String × α)
  | [] => []
  | (k, v) :: rest => (k, v) :: (entries rest).filter fun e => decide (e.1 ≠ k)

/-- The keys of the map. -/
def keys {α : Type} (m : GoMap α) : List String :=
  (entries m).map Prod.fst

end GoMap

/-! ## Form encoding (`net/url`) -/

/-- The table `upperhex` of `net/url`. -/
def upperhex : List Char :=
  ['0', '1', '2', '3', '4', '5', '6', '7', '8', '9', 'A', 'B', 'C', 'D', 'E', 'F']

/-- The function `shouldEscape(c, encodeQueryComponent)`: letters, digits and `-_.~` are kept. -/
def shouldEscape (c : Nat) : Bool :=
  if (97 ≤ c ∧ c ≤ 122) ∨ (65 ≤ c ∧ c ≤ 90) ∨ (48 ≤ c ∧ c ≤ 57) then false
  else if c = 45 ∨ c = 95 ∨ c = 46 ∨ c = 126 then false
  else true

/-- What `escape` writes for one byte in the mode `encodeQueryComponent`. -/
def escapeByte (c : Nat) : List Char :=
  if shouldEscape c then
    if c = 32 then ['+']
    else ['%', upperhex.getD (c / 16 % 16) '0', upperhex.getD (c % 16) '0']
  else [Char.ofNat c]

/-- The function `url.QueryEscape`. -/
def QueryEscape (s : String) : String :=
  String.mk ((bytesOf s).flatMap escapeByte)

/-- Bytewise lexicographic comparison `a <= b`, the order of Go strings. -/
def bytesLE : List Nat → List Nat → Bool
  | [], _ => true
  | _ :: _, [] => false
  | a :: as, b :: bs => if a < b then true else if b < a then false else bytesLE as bs

/-- The order `sort.Strings` sorts by. -/
def strLE (a b : String) : Prop := bytesLE (bytesOf a) (bytesOf b) = true

instance : DecidableRel strLE := fun _ _ => inferInstanceAs (Decidable (_ = true))

/-- A parameter set, `url.Values`: `map[string][]string`. -/
abbrev Values := GoMap (List String)

namespace Values

/-- The method `Values.Set`: the key holds the one value afterwards. -/
def Set (v : Values) (key value : String) : Values :=
  GoMap.set v key [value]

/-- The method `Values.Encode`: `key=value` pairs joined by `&`, sorted by key. -/
def Encode (v : Values) : String :=
  let keys := List.insertionSort strLE (GoMap.keys v)
  String.intercalate "&"
    (keys.flatMap fun k =>
      ((GoMap.get v k).getD []).map fun x => QueryEscape k ++ "=" ++ QueryEscape x)

end Values

/-! ## HMAC (`crypto/hmac`) and the signature (`signature.go`) -/

/-- The HMAC key block: a key longer than the 128-byte block is hashed first, and the
result is filled with zero bytes up to the block size. -/
def hmacKeyBlock (key : List Nat) : List Nat :=
  let k := if key.length > 128 then Sha512.sum key else key
  k ++ List.replicate (128 - k.length) 0

/-- The function `getHMacSha512`: `hmac.New(sha512.New, secret)`, `Write(message)`,
`Sum(nil)`. -/
def getHMacSha512 (message secret : List Nat) : List Nat :=
  let kb := hmacKeyBlock secret
  let ipad := kb.map fun b => b ^^^ 0x36
  let opad := kb.map fun b => b ^^^ 0x5c
  Sha512.sum (opad ++ Sha512.sum (ipad ++ message))

/-- The function `createPoloniexSignature`. -/
def createPoloniexSignature (values : Values) (secret : String) : String :=
  let macsum := getHMacSha512 (bytesOf values.Encode) (bytesOf secret)
  hexEncodeToString macsum

/-! ## The request (`client.go`) -/

/-- The client. The field `Client` is the transport and is not part of the model. -/
structure PoloniexApi where
  Key : String
  secret : String
  UserAgent : String
  deriving DecidableEq, Repr

/-- The constructor `New`. -/
def New (key secret : String) : PoloniexApi :=
  { Key := key, secret := secret, UserAgent := "poloniex-api" }

/-- The request handed to the transport: what `http.NewRequest` and `Header.Add` build. -/
structure Request where
  method : String
  url : String
  headers : GoMap String
  body : Option String
  deriving DecidableEq, Repr

/-- The function `executeHttpQuery`, up to the request it sends: a `GET` carries the
encoding in the URL and has no body, any other method carries it as the body. -/
def executeHttpQuery (method url : String) (headers : GoMap String) (values : Values) :
    Request :=
  if method = "GET" then
    { method := method, url := url ++ "?" ++ values.Encode, headers := headers, body := none }
  else
    { method := method, url := url, headers := headers, body := some values.Encode }

/-- The rendering `fmt.Sprintf("%d", n)`. -/
def sprintfD (n : Int) : String := toString n

/-- The method `query`, at the clock reading `now` (`time.Now().UnixNano()`): the request
it sends, and the parameter set as the call leaves it (`params` is a map, changed in
place). -/
def query (api : PoloniexApi) (now : Int) (url : String) (params : Values)
    (with_signature : Bool) : Request × Values :=
  let headers : GoMap String := []
  let method := "GET"
  let st : Values × GoMap String × String :=
    if with_signature then
      let params := params.Set "nonce" (sprintfD (Int.tdiv now 1000))
      let signature := createPoloniexSignature params api.secret
      let headers := GoMap.set headers "Key" api.Key
      let headers := GoMap.set headers "Sign" signature
      (params, headers, "POST")
    else (params, headers, method)
  let params := st.1
  let headers := st.2.1
  let method := st.2.2
  let headers := if api.UserAgent ≠ "" then GoMap.set headers "User-Agent" api.UserAgent
    else headers
  let headers := GoMap.set headers "Content-Type" "application/x-www-form-urlencoded"
  (executeHttpQuery method url headers params, params)

/-! ## Decoded JSON, panics and the runtime (`encoding/json`, `strconv`) -/

/-- A Go `error`, by its message. -/
abbrev Error := String

/-- The ways the code at hand can panic. -/
inductive Panic where
  | typeAssertion
  | indexOutOfRange
  | nilDereference
  deriving DecidableEq, Repr

/-- What a call does: it returns its Go results, or it panics. -/
inductive Outcome (α : Type) where
  | returns (a : α)
  | panics (p : Panic)
  deriving DecidableEq, Repr

/-- What the body of a loop does: it runs to its end and the loop goes on with a new
state, or it leaves the function (by `return` or by a panic). -/
inductive Flow (σ ρ : Type) where
  | next (s : σ)
  | leave (r : ρ)
  deriving DecidableEq, Repr

/-- A `for key, value := range m` loop over the bindings of a map. -/
def rangeLoop {β σ ρ : Type} (body : String → β → σ → Flow σ ρ) :
    List (String × β) → σ → Flow σ ρ
  | [], s => Flow.next s
  | (k, v) :: rest, s =>
    match body k v s with
    | Flow.next s' => rangeLoop body rest s'
    | Flow.leave r => Flow.leave r

/-- A `for _, v := range xs` loop over a slice. -/
def sliceLoop {β σ ρ : Type} (body : β → σ → Flow σ ρ) : List β → σ → Flow σ ρ
  | [], s => Flow.next s
  | v :: rest, s =>
    match body v s with
    | Flow.next s' => sliceLoop body rest s'
    | Flow.leave r => Flow.leave r

/-- What `json.Unmarshal` stores in an `interface{}`: `nil`, a `bool`, a `float64`, a
`string`, a `[]interface{}` or a `map[string]interface{}`. The type `F` is `float64`. -/
inductive JSON (F : Type) where
  | null
  | bool (b : Bool)
  | num (x : F)
  | str (s : String)
  | arr (items : List (JSON F))
  | obj (fields : List (String × JSON F))

/-- The parts of the Go runtime the normalisers call: the zero `float64`,
`strconv.ParseFloat(s, 64)` and `strconv.Atoi(s)`. -/
structure Runtime (F : Type) where
  zero : F
  ParseFloat : String → Except Error F
  Atoi : String → Except Error Int

/-- The name `reflect.TypeOf(v).Name()`; `reflect.TypeOf(nil)` is nil and has no name. -/
def typeName {F : Type} : JSON F → Option String
  | JSON.null => none
  | JSON.bool _ => some "bool"
  | JSON.num _ => some "float64"
  | JSON.str _ => some "string"
  | JSON.arr _ => some ""
  | JSON.obj _ => some ""

/-! ## Price ladders (`conv.go`) -/

/-- The body of the loop of `interfaceTo2FloatArray`: the price is element 0, a string
parsed as a float; the quantity is element 1, a number. -/
def ladderBody {F : Type} (rt : Runtime F) (v : JSON F) (out : List (F × F)) :
    Flow (List (F × F)) (Outcome (List (F × F) × Option Error)) :=
  match v with
  | JSON.arr [] => Flow.leave (Outcome.panics Panic.indexOutOfRange)
  | JSON.arr (JSON.str s :: tail) =>
    match rt.ParseFloat s with
    | Except.error err => Flow.leave (Outcome.returns (out, some err))
    | Except.ok price =>
      match tail with
      | [] => Flow.leave (Outcome.panics Panic.indexOutOfRange)
      | JSON.num quantity :: _ => Flow.next (out ++ [(price, quantity)])
      | _ :: _ => Flow.leave (Outcome.panics Panic.typeAssertion)
  | JSON.arr (_ :: _) => Flow.leave (Outcome.panics Panic.typeAssertion)
  | _ => Flow.leave (Outcome.panics Panic.typeAssertion)

/-- The function `interfaceTo2FloatArray`. -/
def interfaceTo2FloatArray {F : Type} (rt : Runtime F) (v : JSON F) :
    Outcome (List (F × F) × Option Error) :=
  match v with
  | JSON.arr items =>
    match sliceLoop (ladderBody rt) items [] with
    | Flow.next out => Outcome.returns (out, none)
    | Flow.leave r => r
  | _ => Outcome.panics Panic.typeAssertion

/-! ## The order book (`poloniex-api.go`) -/

/-- The record `OrderBookEntry`. -/
structure OrderBookEntry (F : Type) where
  IsFrozen : Int
  Seq : F
  Asks : List (F × F)
  Bids : List (F × F)
  deriving DecidableEq, Repr

/-- The value `OrderBookEntry{}`, which is also what the local variables start as. -/
def OrderBookEntry.empty {F : Type} (rt : Runtime F) : OrderBookEntry F :=
  { IsFrozen := 0, Seq := rt.zero, Asks := [], Bids := [] }

/-- The body of the loop of `getOrderBookFromInterface`: the `switch key`. -/
def orderBookBody {F : Type} (rt : Runtime F) (key : String) (value : JSON F)
    (st : OrderBookEntry F) :
    Flow (OrderBookEntry F) (Outcome (OrderBookEntry F × Option Error)) :=
  if key = "asks" then
    match interfaceTo2FloatArray rt value with
    | Outcome.panics p => Flow.leave (Outcome.panics p)
    | Outcome.returns (_, some err) =>
      Flow.leave (Outcome.returns (OrderBookEntry.empty rt, some err))
    | Outcome.returns (asks, none) => Flow.next { st with Asks := asks }
  else if key = "bids" then
    match interfaceTo2FloatArray rt value with
    | Outcome.panics p => Flow.leave (Outcome.panics p)
    | Outcome.returns (_, some err) =>
      Flow.leave (Outcome.returns (OrderBookEntry.empty rt, some err))
    | Outcome.returns (bids, none) => Flow.next { st with Bids := bids }
  else if key = "isFrozen" then
    match value with
    | JSON.str s =>
      match rt.Atoi s with
      | Except.error err => Flow.leave (Outcome.returns (OrderBookEntry.empty rt, some err))
      | Except.ok isFrozen => Flow.next { st with IsFrozen := isFrozen }
    | _ => Flow.leave (Outcome.panics Panic.typeAssertion)
  else if key = "seq" then
    match value with
    | JSON.num seq => Flow.next { st with Seq := seq }
    | _ => Flow.leave (Outcome.panics Panic.typeAssertion)
  else Flow.next st

/-- The function `getOrderBookFromInterface`. -/
def getOrderBookFromInterface {F : Type} (rt : Runtime F) (v : JSON F) :
    Outcome (OrderBookEntry F × Option Error) :=
  match v with
  | JSON.obj fields =>
    match rangeLoop (orderBookBody rt) (GoMap.entries fields) (OrderBookEntry.empty rt) with
    | Flow.next order => Outcome.returns (order, none)
    | Flow.leave r => r
  | _ => Outcome.panics Panic.typeAssertion

/-- The body of the loop of `ApiPublicOrderBook` over the markets of an `all` response. -/
def allMarketsBody {F : Type} (rt : Runtime F) (k : String) (v : JSON F)
    (out : GoMap (OrderBookEntry F)) :
    Flow (GoMap (OrderBookEntry F))
      (Outcome (Option (GoMap (OrderBookEntry F)) × Option Error)) :=
  match getOrderBookFromInterface rt v with
  | Outcome.panics p => Flow.leave (Outcome.panics p)
  | Outcome.returns (_, some err) => Flow.leave (Outcome.returns (none, some err))
  | Outcome.returns (order, none) => Flow.next (GoMap.set out k order)

/-- The method `ApiPublicOrderBook`, from the response on: `resp` is what `api.query`
followed by `api.parse` gave, the decoded body or the error of either. The result is the
returned map (`none` for `nil`) and the returned error. -/
def ApiPublicOrderBook {F : Type} (rt : Runtime F) (pair : String)
    (resp : Except Error (JSON F)) :
    Outcome (Option (GoMap (OrderBookEntry F)) × Option Error) :=
  match resp with
  | Except.error err => Outcome.returns (none, some err)
  | Except.ok content =>
    if pair ≠ "all" then
      match getOrderBookFromInterface rt content with
      | Outcome.panics p => Outcome.panics p
      | Outcome.returns (_, some err) => Outcome.returns (none, some err)
      | Outcome.returns (order, none) => Outcome.returns (some (GoMap.set [] pair order), none)
    else
      match content with
      | JSON.obj fields =>
        match rangeLoop (allMarketsBody rt) (GoMap.entries fields) [] with
        | Flow.next out => Outcome.returns (some out, none)
        | Flow.leave r => r
      | _ => Outcome.panics Panic.typeAssertion

/-! ## The 24-hour volume (`poloniex-api.go`) -/

/-- The results of `ApiPublic24hVolume`: the totals, the volumes per market, the error. -/
abbrev VolumeResult (F : Type) := Option (GoMap F) × Option (GoMap (GoMap F)) × Option Error

/-- The body of the inner loop of `ApiPublic24hVolume`, over the volumes of one market. -/
def volumeSubBody {F : Type} (rt : Runtime F) (subkey : String) (subvalue : JSON F)
    (outsub : GoMap F) : Flow (GoMap F) (Outcome (VolumeResult F)) :=
  match subvalue with
  | JSON.str s =>
    match rt.ParseFloat s with
    | Except.error err => Flow.leave (Outcome.returns (none, none, some err))
    | Except.ok volume => Flow.next (GoMap.set outsub subkey volume)
  | _ => Flow.leave (Outcome.panics Panic.typeAssertion)

/-- The body of the outer loop of `ApiPublic24hVolume`: a value whose type is named
`string` is a total, any other value is taken for the map of one market. -/
def volumeBody {F : Type} (rt : Runtime F) (key : String) (value : JSON F)
    (st : GoMap F × GoMap (GoMap F)) :
    Flow (GoMap F × GoMap (GoMap F)) (Outcome (VolumeResult F)) :=
  match typeName value with
  | none => Flow.leave (Outcome.panics Panic.nilDereference)
  | some name =>
    if name = "string" then
      match value with
      | JSON.str s =>
        match rt.ParseFloat s with
        | Except.error err => Flow.leave (Outcome.returns (none, none, some err))
        | Except.ok volume => Flow.next (GoMap.set st.1 key volume, st.2)
      | _ => Flow.leave (Outcome.panics Panic.typeAssertion)
    else
      match value with
      | JSON.obj sub =>
        match rangeLoop (volumeSubBody rt) (GoMap.entries sub) [] with
        | Flow.leave r => Flow.leave r
        | Flow.next outsub => Flow.next (st.1, GoMap.set st.2 key outsub)
      | _ => Flow.leave (Outcome.panics Panic.typeAssertion)

/-- The method `ApiPublic24hVolume`, from the response on: `resp` is what `api.queryparse`
gave, the decoded body or its error. -/
def ApiPublic24hVolume {F : Type} (rt : Runtime F) (resp : Except Error (JSON F)) :
    Outcome (VolumeResult F) :=
  match resp with
  | Except.error err => Outcome.returns (none, none, some err)
  | Except.ok content =>
    match content with
    | JSON.obj fields =>
      match rangeLoop (volumeBody rt) (GoMap.entries fields) ([], []) with
      | Flow.next st => Outcome.returns (some st.1, some st.2, none)
      | Flow.leave r => r
    | _ => Outcome.panics Panic.typeAssertion

/-- The value of a string of decimal digits. -/
def digitsValue : List Char → Nat → Option Nat
  | [], acc => some acc
  | c :: cs, acc =>
    if 48 ≤ c.toNat ∧ c.toNat ≤ 57 then digitsValue cs (acc * 10 + (c.toNat - 48)) else none

/-- A runtime for worked examples: the numbers are the naturals, written in decimal
digits; any other string is a syntax error. -/
def sampleRuntime : Runtime Nat where
  zero := 0
  ParseFloat := fun s =>
    match s.data with
    | [] => Except.error "invalid syntax"
    | c :: cs =>
      match digitsValue (c :: cs) 0 with
      | some n => Except.ok n
      | none => Except.error "invalid syntax"
  Atoi := fun s =>
    match s.data with
    | [] => Except.error "invalid syntax"
    | c :: cs =>
      match digitsValue (c :: cs) 0 with
      | some n => Except.ok (Int.ofNat n)
      | none => Except.error "invalid syntax"

/-- The call failed: it panicked, or it returned an error. -/
def Outcome.failed {α : Type} : Outcome (α × Option Error) → Bool
  | Outcome.panics _ => true
  | Outcome.returns (_, some _) => true
  | Outcome.returns (_, none) => false

/-- Two decodings of one JSON value: they are equal, or they are objects holding the same
value under every key, whatever the order in which each holds and yields its members. -/
def sameRecord {F : Type} (r r' : JSON F) : Prop :=
  r = r' ∨ ∃ f f', r = JSON.obj f ∧ r' = JSON.obj f' ∧ ∀ k, GoMap.get f k = GoMap.get f' k

/-- The number a JSON value holds when it is a well-formed numeric string. -/
def numericString {F : Type} (rt : Runtime F) : JSON F → Option F
  | JSON.str s =>
    match rt.ParseFloat s with
    | Except.ok x => some x
    | Except.error _ => none
  | _ => none

/-- A value of a well-formed 24-hour-volume response: a well-formed numeric string, or an
object of well-formed numeric strings. -/
def volumeValue {F : Type} (rt : Runtime F) (v : JSON F) : Prop :=
  (numericString rt v).isSome = true
  ∨ ∃ sub, v = JSON.obj sub
      ∧ ∀ sk sv, GoMap.get sub sk = some sv → (numericString rt sv).isSome = true

/-- How the binding `key: v` changes the entry of `key` in the totals. -/
def totalsRel {F : Type} (rt : Runtime F) (v : JSON F) (old new : Option F) : Prop :=
  match v with
  | JSON.str _ => new = numericString rt v
  | _ => new = old

/-- How the binding `key: v` changes the entry of `key` in the volumes per market. -/
def marketsRel {F : Type} (rt : Runtime F) (v : JSON F) (old new : Option (GoMap F)) : Prop :=
  match v with
  | JSON.obj sub => ∃ outsub, new = some outsub
      ∧ rangeLoop (volumeSubBody rt) (GoMap.entries sub) [] = Flow.next outsub
  | _ => new = old

/-- A 24-hour-volume response for worked examples: one total and one market. -/
def sampleVolume : GoMap (JSON Nat) :=
  [("totalBTC", JSON.str "10"),
    ("BTC_LTC", JSON.obj [("BTC", JSON.str "1"), ("LTC", JSON.str "2")])]

/-- An order-book record for worked examples. -/
def sampleRecord : JSON Nat :=
  JSON.obj [("asks", JSON.arr [JSON.arr [JSON.str "76", JSON.num 1164]]),
    ("isFrozen", JSON.str "0")]

/-- The same record, its members in the other order. -/
def sampleRecordSwapped : JSON Nat :=
  JSON.obj [("isFrozen", JSON.str "0"),
    ("asks", JSON.arr [JSON.arr [JSON.str "76", JSON.num 1164]])]

/-! ## A decimal runtime for worked examples -/

/-- A decimal number that is not negative: `mantissa / 10 ^ places`, kept without trailing
zeros in the fraction. -/
structure Decimal where
  mantissa : Nat
  places : Nat
  deriving DecidableEq, Repr

/-- The character is a decimal digit. -/
def isDigit (c : Char) : Bool := decide (48 ≤ c.toNat ∧ c.toNat ≤ 57)

/-- The digits without the zeros at their end. -/
def dropTrailingZeros (l : List Char) : List Char :=
  (l.reverse.dropWhile fun c => c == '0').reverse

/-- The decimal written as digits with an optional fraction, such as `10.0` or
`0.00007600`. -/
def parseDecimal (s : List Char) : Option Decimal :=
  let whole := s.takeWhile isDigit
  match s.dropWhile isDigit with
  | [] =>
    match whole with
    | [] => none
    | _ :: _ => (digitsValue whole 0).map fun n => { mantissa := n, places := 0 }
  | '.' :: fraction =>
    match whole ++ fraction, digitsValue fraction 0 with
    | _ :: _, some _ =>
      (digitsValue (whole ++ dropTrailingZeros fraction) 0).map fun n =>
        { mantissa := n, places := (dropTrailingZeros fraction).length }
    | _, _ => none
  | _ :: _ => none

/-- The integer written as digits with an optional sign. -/
def parseInteger (s : List Char) : Option Int :=
  match s with
  | [] => none
  | '-' :: c :: cs => (digitsValue (c :: cs) 0).map fun n => -Int.ofNat n
  | '+' :: c :: cs => (digitsValue (c :: cs) 0).map fun n => Int.ofNat n
  | c :: cs => (digitsValue (c :: cs) 0).map fun n => Int.ofNat n

/-- A runtime for worked examples with decimals: `ParseFloat` reads digits with an optional
fraction and `Atoi` digits with an optional sign; any other string is a syntax error. -/
def decimalRuntime : Runtime Decimal where
  zero := { mantissa := 0, places := 0 }
  ParseFloat := fun s =>
    match parseDecimal s.data with
    | some x => Except.ok x
    | none => Except.error ("strconv.ParseFloat: parsing \"" ++ s ++ "\": invalid syntax")
  Atoi := fun s =>
    match parseInteger s.data with
    | some n => Except.ok n
    | none => Except.error ("strconv.Atoi: parsing \"" ++ s ++ "\": invalid syntax")

/-- The payload `{"totalBTC":"10.0","BTC_LTC":{"BTC":"1.0","LTC":"2.0"}}`, decoded. -/
def mixedPayload (F : Type) : GoMap (JSON F) :=
  [("totalBTC", JSON.str "10.0"),
    ("BTC_LTC", JSON.obj [("BTC", JSON.str "1.0"), ("LTC", JSON.str "2.0")])]

/-- The decoded two-element tuple `[price, quantity]`: a string and a number. -/
def tuple {F : Type} (t : String × F) : JSON F :=
  JSON.arr [JSON.str t.1, JSON.num t.2]

/-- The ladder entry decodes the tuple: its price is the value of the price string, its
quantity the number. -/
def decodes {F : Type} (rt : Runtime F) (t : String × F) (e : F × F) : Prop :=
  rt.ParseFloat t.1 = Except.ok e.1 ∧ e.2 = t.2

/-- The sample output of the doc comment of `ApiPublicOrderBook`, decoded:
`{"asks":[[0.00007600,1164],[0.00007620,1300]], "bids":[[0.00006901,200],[0.00006900,408]],
"isFrozen": 0, "seq": 18849}`. -/
def documentedSample : JSON Decimal :=
  JSON.obj
    [("asks", JSON.arr
        [JSON.arr [JSON.num { mantissa := 76, places := 6 },
            JSON.num { mantissa := 1164, places := 0 }],
          JSON.arr [JSON.num { mantissa := 762, places := 7 },
            JSON.num { mantissa := 1300, places := 0 }]]),
      ("bids", JSON.arr
        [JSON.arr [JSON.num { mantissa := 6901, places := 8 },
            JSON.num { mantissa := 200, places := 0 }],
          JSON.arr [JSON.num { mantissa := 69, places := 6 },
            JSON.num { mantissa := 408, places := 0 }]]),
      ("isFrozen", JSON.num { mantissa := 0, places := 0 }),
      ("seq", JSON.num { mantissa := 18849, places := 0 })]

/-! ## Responses of the expected shape -/

/-- A ladder of the expected shape: an array of tuples that start with a string and a
number. -/
def ladderShaped {F : Type} (v : JSON F) : Prop :=
  ∃ items, v = JSON.arr items
    ∧ ∀ t ∈ items, ∃ s q tail, t = JSON.arr (JSON.str s :: JSON.num q :: tail)

/-- A price string of the ladder fails to parse. -/
def ladderFails {F : Type} (rt : Runtime F) (v : JSON F) : Prop :=
  ∃ items, v = JSON.arr items
    ∧ ∃ t ∈ items, ∃ s tail err, t = JSON.arr (JSON.str s :: tail)
        ∧ rt.ParseFloat s = Except.error err

/-- An order-book record of the expected shape: an object whose `asks` and `bids` are
ladders of the expected shape, whose `isFrozen` is a string and whose `seq` is a number. -/
def recordShaped {F : Type} (r : JSON F) : Prop :=
  ∃ f, r = JSON.obj f ∧ ∀ k v, GoMap.get f k = some v →
    ((k = "asks" ∨ k = "bids") → ladderShaped v)
    ∧ (k = "isFrozen" → ∃ s, v = JSON.str s)
    ∧ (k = "seq" → ∃ x, v = JSON.num x)

/-- A ladder price or the `isFrozen` string of the record fails to parse. -/
def recordFails {F : Type} (rt : Runtime F) (r : JSON F) : Prop :=
  ∃ f, r = JSON.obj f ∧ ∃ k v, GoMap.get f k = some v
    ∧ (((k = "asks" ∨ k = "bids") ∧ ladderFails rt v)
      ∨ (k = "isFrozen" ∧ ∃ s err, v = JSON.str s ∧ rt.Atoi s = Except.error err))

/-- A 24-hour-volume response of the expected shape: every value is a string or an object
of strings. -/
def volumeShaped {F : Type} (fields : GoMap (JSON F)) : Prop :=
  ∀ k v, GoMap.get fields k = some v →
    (∃ s, v = JSON.str s)
    ∨ ∃ sub, v = JSON.obj sub ∧ ∀ sk sv, GoMap.get sub sk = some sv → ∃ s, sv = JSON.str s

/-- A numeric string of the 24-hour-volume response fails to parse. -/
def volumeFails {F : Type} (rt : Runtime F) (fields : GoMap (JSON F)) : Prop :=
  ∃ k v, GoMap.get fields k = some v
    ∧ ((∃ s err, v = JSON.str s ∧ rt.ParseFloat s = Except.error err)
      ∨ ∃ sub sk s err, v = JSON.obj sub ∧ GoMap.get sub sk = some (JSON.str s)
          ∧ rt.ParseFloat s = Except.error err)

/-- An order-book record that decodes, for worked examples. -/
def goodRecord : JSON Decimal :=
  JSON.obj
    [("asks", JSON.arr [JSON.arr [JSON.str "0.00007600",
        JSON.num { mantissa := 1164, places := 0 }]]),
      ("isFrozen", JSON.str "0")]

/-- An order-book record of the expected shape whose second ask has the price `bad`. -/
def badPriceRecord : JSON Decimal :=
  JSON.obj
    [("asks", JSON.arr
        [JSON.arr [JSON.str "1", JSON.num { mantissa := 1164, places := 0 }],
          JSON.arr [JSON.str "bad", JSON.num { mantissa := 1164, places := 0 }]]),
      ("isFrozen", JSON.str "0")]

/-- An `all` response: a market that decodes, then a market with a bad price. -/
def badPriceMarkets : GoMap (JSON Decimal) :=
  [("BTC_NXT", goodRecord), ("BTC_XMR", badPriceRecord)]

/-- A 24-hour-volume response of the expected shape with the volume `bad`. -/
def badVolume : GoMap (JSON Decimal) :=
  [("totalBTC", JSON.str "10.0"), ("BTC_LTC", JSON.obj [("BTC", JSON.str "bad")])]

/-- An order-book record whose ladder holds a number where a tuple is expected, before a
tuple with the price `bad`. -/
def misshapenRecord : JSON Decimal :=
  JSON.obj
    [("asks", JSON.arr
        [JSON.num { mantissa := 7, places := 0 },
          JSON.arr [JSON.str "bad", JSON.num { mantissa := 1164, places := 0 }]])]

/-! ## Formatting without operands (`fmt`) -/

/-- The function `parsenum` from the head of the format on: whether a number was read,
and what follows it. A number above `10^6` is given up and the scan jumps to the end. -/
def parsenumAux : List Char → Nat → Bool → Bool × List Char
  | [], _, isnum => (isnum, [])
  | c :: cs, num, isnum =>
    if isDigit c then
      if num > 1000000 then (false, [])
      else parsenumAux cs (num * 10 + (c.toNat - 48)) true
    else (isnum, c :: cs)

/-- The function `parsenum`. -/
def parsenum (s : List Char) : Bool × List Char := parsenumAux s 0 false

/-- The function `argNumber` when there is no operand: what follows the argument index,
whether a well-formed index `[n]` was read (`afterIndex`), and whether a `[` was met, which
without operands always clears `goodArgNum`. -/
def argNumber (s : List Char) : List Char × Bool × Bool :=
  match s with
  | '[' :: rest =>
    let inner := rest.takeWhile fun c => c != ']'
    if (s.flatMap utf8Char).length < 3 then (rest, false, true)
    else if inner.length < rest.length then
      (rest.drop (inner.length + 1),
        (parsenum inner).1 && (parsenum inner).2.isEmpty && !inner.isEmpty, true)
    else (rest, false, true)
  | _ => (s, false, false)

/-- The flags of a directive. -/
def isFlag (c : Char) : Bool :=
  c == '#' || c == '0' || c == '+' || c == '-' || c == ' '

/-- One directive of `doPrintf` when there is no operand, from the character after `%` on:
what is written, and what follows the directive. -/
def directive (s : List Char) : List Char × List Char :=
  let a := argNumber (s.dropWhile isFlag)
  let w : List Char × List Char × Bool :=
    match a.1 with
    | '*' :: r => ("%!(BADWIDTH)".data, r, false)
    | r => ([], (parsenum r).2, a.2.1)
  let p : List Char × List Char × Bool × Bool :=
    match w.2.1 with
    | '.' :: r =>
      let b := argNumber r
      match b.1 with
      | '*' :: r' => ("%!(BADPREC)".data, r', false, b.2.2)
      | r' => ([], (parsenum r').2, b.2.1, b.2.2)
    | r => ([], r, w.2.2, false)
  let c := if p.2.2.1 then (p.2.1, false, false) else argNumber p.2.1
  let bad := a.2.2 || p.2.2.2 || c.2.2
  match c.1 with
  | [] => (w.1 ++ p.1 ++ "%!(NOVERB)".data, [])
  | verb :: rest =>
    if verb = '%' then (w.1 ++ p.1 ++ ['%'], rest)
    else if bad then (w.1 ++ p.1 ++ "%!".data ++ [verb] ++ "(BADINDEX)".data, rest)
    else (w.1 ++ p.1 ++ "%!".data ++ [verb] ++ "(MISSING)".data, rest)

/-- The function `doPrintf` when there is no operand: plain text is copied, each
directive is replaced by what `directive` writes. The first argument bounds the number of
directives. -/
def doPrintf : Nat → List Char → List Char
  | 0, _ => []
  | fuel + 1, s =>
    match s.dropWhile fun c => c != '%' with
    | [] => s.takeWhile fun c => c != '%'
    | _ :: afterPercent =>
      (s.takeWhile fun c => c != '%') ++ (directive afterPercent).1
        ++ doPrintf fuel (directive afterPercent).2

/-- The message of the error `fmt.Errorf(format)`, the format given without operands. -/
def fmtErrorf (format : String) : Error :=
  String.mk (doPrintf (format.length + 1) format.data)

/-! ## Cancelling an order (`private.go`) -/

/-- The record `CancelOrder`. -/
structure CancelOrder (F : Type) where
  Success : Int
  Error : String
  Amount : F
  Message : String
  deriving DecidableEq, Repr

/-- The record `json.Unmarshal` fills from the response body `{"error": m}`: the message,
every other field zero. -/
def errorBody {F : Type} (rt : Runtime F) (m : String) : CancelOrder F :=
  { Success := 0, Error := m, Amount := rt.zero, Message := "" }

/-- The method `ApiPrivateCancel`, from the response on: `resp` is what `api.queryparse`
gave, the decoded record or its error. The results are the flag, the record (`none` for
`nil`) and the error. -/
def ApiPrivateCancel {F : Type} (resp : Except Poloniex.Error (CancelOrder F)) :
    Bool × Option (CancelOrder F) × Option Poloniex.Error :=
  match resp with
  | Except.error err => (false, none, some err)
  | Except.ok out =>
    if out.Error ≠ "" then (false, none, some (fmtErrorf out.Error))
    else (decide (1 = out.Success), some out, none)

/-! ## Placing and moving orders (`private.go`) -/

/-- The URL `URL_PRIVATE`. -/
def URL_PRIVATE : String := "https://poloniex.com/tradingApi"

/-- The command `CMD_PRIVATE_BUY`. -/
def CMD_PRIVATE_BUY : String := "buy"

/-- The command `CMD_PRIVATE_SELL`. -/
def CMD_PRIVATE_SELL : String := "sell"

/-- The command `CMD_PRIVATE_MOVE_ORDER`. -/
def CMD_PRIVATE_MOVE_ORDER : String := "moveOrder"

/-- What the order methods ask of `float64`: `strconv.FormatFloat(x, 'f', -1, 64)` and the
test `x != 0.0`. -/
structure FloatText (F : Type) where
  FormatFloat : F → String
  nonZero : F → Bool

/-- The rendering `strconv.FormatInt(n, 10)`. -/
def formatInt (n : Int) : String := toString n

/-- The method `ApiPrivateBuy`, up to the parameter set it hands to `api.queryparse`;
`opts` is the `map[string]bool` of the caller. -/
def ApiPrivateBuy {F : Type} (ft : FloatText F) (currencyPair : String) (rate amount : F)
    (opts : GoMap Bool) : Values :=
  let params : Values := []
  let params := params.Set "command" CMD_PRIVATE_BUY
  let params := params.Set "currencyPair" currencyPair
  let params := params.Set "rate" (ft.FormatFloat rate)
  let params := params.Set "amount" (ft.FormatFloat amount)
  let params := if (GoMap.get opts "fillOrKill").isSome then params.Set "fillOrKill" "1"
    else params
  let params := if (GoMap.get opts "immediateOrCancel").isSome then
    params.Set "immediateOrCancel" "1" else params
  let params := if (GoMap.get opts "postOnly").isSome then params.Set "postOnly" "1"
    else params
  params

/-- The method `ApiPrivateSell`, up to the parameter set it hands to `api.queryparse`. -/
def ApiPrivateSell {F : Type} (ft : FloatText F) (currencyPair : String) (rate amount : F)
    (opts : GoMap Bool) : Values :=
  let params : Values := []
  let params := params.Set "command" CMD_PRIVATE_SELL
  let params := params.Set "currencyPair" currencyPair
  let params := params.Set "rate" (ft.FormatFloat rate)
  let params := params.Set "amount" (ft.FormatFloat amount)
  let params := if (GoMap.get opts "fillOrKill").isSome then params.Set "fillOrKill" "1"
    else params
  let params := if (GoMap.get opts "immediateOrCancel").isSome then
    params.Set "immediateOrCancel" "1" else params
  let params := if (GoMap.get opts "postOnly").isSome then params.Set "postOnly" "1"
    else params
  params

/-- The method `ApiPrivateMoveOrder`, up to the parameter set it hands to
`api.queryparse`; it has no test of `fillOrKill`. -/
def ApiPrivateMoveOrder {F : Type} (ft : FloatText F) (orderNumber : Int) (rate amount : F)
    (opts : GoMap Bool) : Values :=
  let params : Values := []
  let params := params.Set "command" CMD_PRIVATE_MOVE_ORDER
  let params := params.Set "orderNumber" (formatInt orderNumber)
  let params := params.Set "rate" (ft.FormatFloat rate)
  let params := if ft.nonZero amount then params.Set "amount" (ft.FormatFloat amount)
    else params
  let params := if (GoMap.get opts "immediateOrCancel").isSome then
    params.Set "immediateOrCancel" "1" else params
  let params := if (GoMap.get opts "postOnly").isSome then params.Set "postOnly" "1"
    else params
  params

/-- Float texts for worked examples: the naturals, written in decimal digits. -/
def sampleFloatText : FloatText Nat where
  FormatFloat := fun x => toString x
  nonZero := fun x => decide (x ≠ 0)

/-! # Properties

## Strings as bytes -/

theorem Char_toNat_lt (c : Char) : c.toNat < 0x110000 := by
  have h := c.valid
  simp only [UInt32.isValidChar, Nat.isValidChar] at h
  show c.val.toNat < _
  omega

theorem utf8Char_append_inj (c d : Char) (r t : List Nat)
    (h : utf8Char c ++ r = utf8Char d ++ t) : c = d ∧ r = t := by
  have hc := Char_toNat_lt c
  have hd := Char_toNat_lt d
  have key : c.toNat = d.toNat ∧ r = t := by
    unfold utf8Char at h
    simp only at h
    split_ifs at h <;> simp only [List.cons_append, List.nil_append, List.cons.injEq] at h <;>
      first
        | (exfalso; omega)
        | (constructor
           · omega
           · simp only [h])
  refine ⟨?_, key.2⟩
  apply Char.ext
  have := key.1
  simp only [Char.toNat] at this
  exact UInt32.ext this

theorem utf8Char_ne_nil (c : Char) : utf8Char c ≠ [] := by
  unfold utf8Char
  simp only
  split_ifs <;> simp

theorem bytesOf_injective : Function.Injective bytesOf := by
  intro a b h
  apply String.ext
  unfold bytesOf at h
  generalize a.data = l at h
  generalize b.data = m at h
  induction l generalizing m with
  | nil =>
    cases m with
    | nil => rfl
    | cons d m =>
      exfalso
      simp only [List.flatMap_nil, List.flatMap_cons] at h
      exact utf8Char_ne_nil d (List.append_eq_nil.mp h.symm).1
  | cons c l ih =>
    cases m with
    | nil =>
      exfalso
      simp only [List.flatMap_nil, List.flatMap_cons] at h
      exact utf8Char_ne_nil c (List.append_eq_nil.mp h).1
    | cons d m =>
      simp only [List.flatMap_cons] at h
      obtain ⟨h1, h2⟩ := utf8Char_append_inj c d _ _ h
      rw [h1, ih m h2]

/-! ## The order of keys, maps and the canonical encoding -/

theorem bytesLE_total (a b : List Nat) : bytesLE a b = true ∨ bytesLE b a = true := by
  induction a generalizing b with
  | nil => left; rfl
  | cons x a ih =>
    cases b with
    | nil => right; rfl
    | cons y b =>
      simp only [bytesLE]
      rcases Nat.lt_trichotomy x y with h | h | h
      · left; simp [h]
      · subst h; simpa using ih b
      · right; simp [h]

theorem bytesLE_trans (a b c : List Nat) (h1 : bytesLE a b = true) (h2 : bytesLE b c = true) :
    bytesLE a c = true := by
  induction a generalizing b c with
  | nil => rfl
  | cons x a ih =>
    cases b with
    | nil => simp [bytesLE] at h1
    | cons y b =>
      cases c with
      | nil => simp [bytesLE] at h2
      | cons z c =>
        simp only [bytesLE] at h1 h2 ⊢
        split_ifs at h1 h2 ⊢ <;> first | rfl | omega | (exact ih b c h1 h2)

theorem bytesLE_antisymm (a b : List Nat) (h1 : bytesLE a b = true) (h2 : bytesLE b a = true) :
    a = b := by
  induction a generalizing b with
  | nil =>
    cases b with
    | nil => rfl
    | cons y b => simp [bytesLE] at h2
  | cons x a ih =>
    cases b with
    | nil => simp [bytesLE] at h1
    | cons y b =>
      simp only [bytesLE] at h1 h2
      split_ifs at h1 h2 <;> first | omega | skip
      have : x = y := by omega
      rw [this, ih b h1 h2]

instance : IsTotal String strLE := ⟨fun _ _ => bytesLE_total _ _⟩
instance : IsTrans String strLE := ⟨fun _ _ _ => bytesLE_trans _ _ _⟩
instance : IsAntisymm String strLE :=
  ⟨fun _ _ h1 h2 => bytesOf_injective (bytesLE_antisymm _ _ h1 h2)⟩

namespace GoMap
variable {α : Type}

theorem get_set_self (m : GoMap α) (k : String) (v : α) : get (set m k v) k = some v := by
  induction m with
  | nil => simp [set, get]
  | cons e m ih =>
    obtain ⟨k', v'⟩ := e
    by_cases h : k' = k
    · simp [set, get, h]
    · simp [set, get, h, ih]

theorem get_set_of_ne (m : GoMap α) (k k' : String) (v : α) (h : k' ≠ k) :
    get (set m k v) k' = get m k' := by
  induction m with
  | nil => simp [set, get, Ne.symm h]
  | cons e m ih =>
    obtain ⟨k0, v0⟩ := e
    by_cases h0 : k0 = k
    · subst h0
      simp [set, get, Ne.symm h]
    · simp [set, get, h0, ih]

theorem get_filter_ne (l : List (String × α)) (k k' : String) (h : k' ≠ k) :
    get (l.filter fun e => decide (e.1 ≠ k)) k' = get l k' := by
  induction l with
  | nil => rfl
  | cons e l ih =>
    obtain ⟨k0, v0⟩ := e
    by_cases h0 : k0 = k
    · subst h0
      simpa [List.filter, get, Ne.symm h] using ih
    · simp only [List.filter, h0, ne_eq, not_false_eq_true, decide_True, get, ih]

theorem get_entries (m : GoMap α) (k : String) : get (entries m) k = get m k := by
  induction m with
  | nil => rfl
  | cons e m ih =>
    obtain ⟨k0, v0⟩ := e
    by_cases h0 : k0 = k
    · simp [entries, get, h0]
    · simp only [entries, get, h0, if_false]
      rw [get_filter_ne _ _ _ (Ne.symm h0), ih]

theorem mem_keys_of_get (l : List (String × α)) (k : String) (v : α) (h : get l k = some v) :
    (k, v) ∈ l := by
  induction l with
  | nil => simp [get] at h
  | cons e l ih =>
    obtain ⟨k0, v0⟩ := e
    by_cases h0 : k0 = k
    · simp [get, h0] at h
      simp [h0, h]
    · simp only [get, h0, if_false] at h
      exact List.mem_cons_of_mem _ (ih h)

theorem get_isSome_of_mem (l : List (String × α)) (k : String) (v : α) (h : (k, v) ∈ l) :
    (get l k).isSome = true := by
  induction l with
  | nil => simp at h
  | cons e l ih =>
    obtain ⟨k0, v0⟩ := e
    by_cases h0 : k0 = k
    · simp [get, h0]
    · simp only [get, h0, if_false]
      rcases List.mem_cons.mp h with h1 | h1
      · exact absurd (congrArg Prod.fst h1).symm h0
      · exact ih h1

theorem entries_nodupKeys (m : GoMap α) : ((entries m).map Prod.fst).Nodup := by
  induction m with
  | nil => simp [entries]
  | cons e m ih =>
    obtain ⟨k0, v0⟩ := e
    simp only [entries, List.map_cons, List.nodup_cons]
    constructor
    · simp [List.mem_map, List.mem_filter]
    · exact (ih.sublist ((List.filter_sublist _).map _))

theorem mem_keys_iff (m : GoMap α) (k : String) : k ∈ keys m ↔ (get m k).isSome = true := by
  unfold keys
  rw [← get_entries]
  constructor
  · intro h
    obtain ⟨⟨k1, v⟩, hm, rfl⟩ := List.mem_map.mp h
    exact get_isSome_of_mem _ _ _ hm
  · intro h
    obtain ⟨v, hv⟩ := Option.isSome_iff_exists.mp h
    exact List.mem_map.mpr ⟨(k, v), mem_keys_of_get _ _ _ hv, rfl⟩

theorem keys_nodup (m : GoMap α) : (keys m).Nodup := entries_nodupKeys m

theorem keys_perm_of_get_eq (a b : GoMap α) (h : ∀ k, get a k = get b k) :
    (keys a).Perm (keys b) := by
  rw [List.perm_ext_iff_of_nodup (keys_nodup a) (keys_nodup b)]
  intro k
  rw [mem_keys_iff, mem_keys_iff, h]

end GoMap

theorem sortedKeys_eq_of_get_eq (a b : Values) (h : ∀ k, GoMap.get a k = GoMap.get b k) :
    List.insertionSort strLE (GoMap.keys a) = List.insertionSort strLE (GoMap.keys b) := by
  apply List.eq_of_perm_of_sorted (r := strLE)
  · exact ((List.perm_insertionSort _ _).trans (GoMap.keys_perm_of_get_eq a b h)).trans
      (List.perm_insertionSort _ _).symm
  · exact List.sorted_insertionSort _ _
  · exact List.sorted_insertionSort _ _

theorem Encode_eq_of_get_eq (a b : Values) (h : ∀ k, GoMap.get a k = GoMap.get b k) :
    Values.Encode a = Values.Encode b := by
  unfold Values.Encode
  simp only [sortedKeys_eq_of_get_eq a b h, h]

/-! ## The digest and its hexadecimal form -/

theorem beBytes_length (n w : Nat) : (Sha512.beBytes n w).length = n := by
  induction n with
  | zero => rfl
  | succ n ih => simp [Sha512.beBytes, ih]

theorem beBytes_lt (n w : Nat) : ∀ b ∈ Sha512.beBytes n w, b < 256 := by
  induction n with
  | zero => simp [Sha512.beBytes]
  | succ n ih =>
    intro b hb
    simp only [Sha512.beBytes, List.mem_cons] at hb
    rcases hb with rfl | hb
    · exact Nat.mod_lt _ (by decide)
    · exact ih b hb

theorem sum_length (msg : List Nat) : (Sha512.sum msg).length = 64 := by
  simp [Sha512.sum, Sha512.digest, beBytes_length]

theorem sum_lt (msg : List Nat) : ∀ b ∈ Sha512.sum msg, b < 256 := by
  intro b hb
  simp only [Sha512.sum, Sha512.digest, List.mem_append] at hb
  rcases hb with ((((((hb | hb) | hb) | hb) | hb) | hb) | hb) | hb <;> exact beBytes_lt _ _ b hb

theorem getHMacSha512_length (message secret : List Nat) :
    (getHMacSha512 message secret).length = 64 := sum_length _

theorem getHMacSha512_lt (message secret : List Nat) :
    ∀ b ∈ getHMacSha512 message secret, b < 256 := sum_lt _

theorem hexEncodeToString_length (src : List Nat) :
    (hexEncodeToString src).length = 2 * src.length := by
  unfold hexEncodeToString
  rw [String.length]
  induction src with
  | nil => rfl
  | cons b src ih => simp [List.flatMap_cons, hexByte, ih]; omega

theorem hextable_getD_mem (i : Nat) : hextable.getD (i % 16) '0' ∈ hextable := by
  have h : i % 16 < 16 := Nat.mod_lt _ (by decide)
  generalize i % 16 = j at h
  interval_cases j <;> decide

theorem hexEncodeToString_mem (src : List Nat) :
    ∀ c ∈ (hexEncodeToString src).data, c ∈ hextable := by
  intro c hc
  simp only [hexEncodeToString, List.mem_flatMap, hexByte, List.mem_cons, List.mem_singleton,
    List.not_mem_nil, or_false] at hc
  obtain ⟨b, -, rfl | rfl⟩ := hc
  · exact hextable_getD_mem _
  · exact hextable_getD_mem _

theorem hextable_getD_inj : ∀ i < 16, ∀ j < 16,
    hextable.getD i '0' = hextable.getD j '0' → i = j := by
  decide

theorem hexByte_inj (x y : Nat) (hx : x < 256) (hy : y < 256) (h : hexByte x = hexByte y) :
    x = y := by
  simp only [hexByte, List.cons.injEq, and_true] at h
  have h1 := hextable_getD_inj _ (Nat.mod_lt _ (by decide)) _ (Nat.mod_lt _ (by decide)) h.1
  have h2 := hextable_getD_inj _ (Nat.mod_lt _ (by decide)) _ (Nat.mod_lt _ (by decide)) h.2
  omega

theorem hexEncodeToString_inj (a b : List Nat) (ha : ∀ x ∈ a, x < 256) (hb : ∀ x ∈ b, x < 256)
    (h : hexEncodeToString a = hexEncodeToString b) : a = b := by
  unfold hexEncodeToString at h
  have h' : a.flatMap hexByte = b.flatMap hexByte := by
    simpa using congrArg String.data h
  clear h
  induction a generalizing b with
  | nil =>
    cases b with
    | nil => rfl
    | cons y b => simp [List.flatMap_cons, hexByte] at h'
  | cons x a ih =>
    cases b with
    | nil => simp [List.flatMap_cons, hexByte] at h'
    | cons y b =>
      simp only [List.flatMap_cons, hexByte, List.cons_append, List.nil_append,
        List.cons.injEq] at h'
      have hxy : x = y := hexByte_inj x y (ha x (List.mem_cons_self _ _))
        (hb y (List.mem_cons_self _ _)) (by rw [hexByte, hexByte, h'.1, h'.2.1])
      rw [hxy, ih b (fun z hz => ha z (List.mem_cons_of_mem _ hz))
        (fun z hz => hb z (List.mem_cons_of_mem _ hz)) h'.2.2]

/-- The known answer for `abc` (FIPS 180-4, appendix C.1). -/
theorem sha512_abc : hexEncodeToString (Sha512.sum (bytesOf "abc")) =
    "ddaf35a193617abacc417349ae20413112e6fa4e89a97ea20a9eeee64b55d39a2192992a274fc1a836ba3c23a3feebbd454d4423643ce80e2a9ac94fa54ca49f" := by
  decide!

/-! ## The signed request -/

theorem query_params_signed (api : PoloniexApi) (now : Int) (url : String) (params : Values) :
    (query api now url params true).2
      = Values.Set params "nonce" (sprintfD (Int.tdiv now 1000)) := rfl

theorem query_params_unsigned (api : PoloniexApi) (now : Int) (url : String) (params : Values) :
    (query api now url params false).2 = params := rfl

theorem query_method (api : PoloniexApi) (now : Int) (url : String) (params : Values)
    (ws : Bool) : (query api now url params ws).1.method = if ws then "POST" else "GET" := by
  cases ws <;> rfl

theorem query_headers_eq (api : PoloniexApi) (now : Int) (url : String) (params : Values)
    (ws : Bool) :
    (query api now url params ws).1.headers
      = GoMap.set
          (if api.UserAgent ≠ "" then
            GoMap.set (if ws then [("Key", api.Key), ("Sign", createPoloniexSignature
              (Values.Set params "nonce" (sprintfD (Int.tdiv now 1000))) api.secret)] else [])
              "User-Agent" api.UserAgent
          else (if ws then [("Key", api.Key), ("Sign", createPoloniexSignature
              (Values.Set params "nonce" (sprintfD (Int.tdiv now 1000))) api.secret)] else []))
          "Content-Type" "application/x-www-form-urlencoded" := by
  cases ws <;> rfl

theorem query_headers (api : PoloniexApi) (now : Int) (url : String) (params : Values)
    (ws : Bool) (k : String) (hk1 : k ≠ "User-Agent") (hk2 : k ≠ "Content-Type") :
    GoMap.get (query api now url params ws).1.headers k
      = if ws then
          GoMap.get [("Key", api.Key), ("Sign", createPoloniexSignature
            (Values.Set params "nonce" (sprintfD (Int.tdiv now 1000))) api.secret)] k
        else none := by
  rw [query_headers_eq, GoMap.get_set_of_ne _ _ _ _ hk2]
  by_cases hu : api.UserAgent ≠ ""
  · rw [if_pos hu, GoMap.get_set_of_ne _ _ _ _ hk1]
    cases ws <;> rfl
  · rw [if_neg hu]
    cases ws <;> rfl

theorem query_contentType (api : PoloniexApi) (now : Int) (url : String) (params : Values)
    (ws : Bool) :
    GoMap.get (query api now url params ws).1.headers "Content-Type"
      = some "application/x-www-form-urlencoded" := by
  rw [query_headers_eq, GoMap.get_set_self]

theorem query_body (api : PoloniexApi) (now : Int) (url : String) (params : Values)
    (ws : Bool) :
    (query api now url params ws).1.body
      = if ws then some (Values.Encode (query api now url params ws).2) else none := by
  cases ws <;> rfl

theorem query_url (api : PoloniexApi) (now : Int) (url : String) (params : Values)
    (ws : Bool) :
    (query api now url params ws).1.url
      = if ws then url else url ++ "?" ++ Values.Encode params := by
  cases ws <;> rfl

theorem tdiv_thousand (t : Int) :
    (0 ≤ t ∧ Int.tdiv t 1000 = t / 1000) ∨ (t < 0 ∧ Int.tdiv t 1000 = -((-t) / 1000)) := by
  by_cases h : 0 ≤ t
  · exact Or.inl ⟨h, Int.tdiv_eq_ediv h (by decide)⟩
  · refine Or.inr ⟨by omega, ?_⟩
    have h1 : Int.tdiv (-(-t)) 1000 = -(Int.tdiv (-t) 1000) := Int.neg_tdiv (-t) 1000
    rw [Int.neg_neg] at h1
    rw [h1, Int.tdiv_eq_ediv (by omega) (by decide)]

theorem hextable_range (c : Char) (h : c ∈ hextable) :
    ('0' ≤ c ∧ c ≤ '9') ∨ ('a' ≤ c ∧ c ≤ 'f') := by
  simp only [hextable, List.mem_cons, List.mem_singleton, List.not_mem_nil, or_false] at h
  rcases h with h | h | h | h | h | h | h | h | h | h | h | h | h | h | h | h <;> subst h <;> decide

theorem hmacKeyBlock_append_zero (key : List Nat) (h : key.length < 128) :
    hmacKeyBlock (key ++ [0]) = hmacKeyBlock key := by
  unfold hmacKeyBlock
  have h1 : ¬ (key ++ [0]).length > 128 := by simp; omega
  have h2 : ¬ key.length > 128 := by omega
  simp only [if_neg h1, if_neg h2]
  have : 128 - key.length = (128 - (key ++ [0]).length) + 1 := by
    simp only [List.length_append, List.length_singleton]; omega
  rw [this, List.replicate_succ, List.append_assoc]
  rfl

theorem getHMacSha512_eq_of_keyBlock (message s1 s2 : List Nat)
    (h : hmacKeyBlock s1 = hmacKeyBlock s2) :
    getHMacSha512 message s1 = getHMacSha512 message s2 := by
  unfold getHMacSha512
  rw [h]

/-- C1: a signed call sends as its POST body the string that was signed: the parameters
the call leaves are the given ones with the nonce set, the body is their canonical
encoding, and the `Sign` header is the lowercase hex of the HMAC-SHA512 of that body under
the secret. -/
theorem signed_body_is_signed_message (api : PoloniexApi) (now : Int) (url : String)
    (params : Values) :
    (query api now url params true).1.method = "POST"
    ∧ (query api now url params true).2
        = Values.Set params "nonce" (sprintfD (Int.tdiv now 1000))
    ∧ (query api now url params true).1.body
        = some (Values.Encode (query api now url params true).2)
    ∧ GoMap.get (query api now url params true).1.headers "Sign"
        = some (hexEncodeToString (getHMacSha512
            (bytesOf (Values.Encode (query api now url params true).2)) (bytesOf api.secret)))
    ∧ GoMap.get (query api now url params true).2 "nonce"
        = some [sprintfD (Int.tdiv now 1000)] := by
  refine ⟨rfl, rfl, rfl, ?_, ?_⟩
  · rw [query_headers _ _ _ _ _ _ (by decide) (by decide)]
    rfl
  · rw [query_params_signed]
    exact GoMap.get_set_self _ _ _

/-- C2: the signature is the hex encoding of the 64-byte HMAC-SHA512 of the canonical
encoding keyed by the secret: 128 characters, each one of `0-9` or `a-f`. -/
theorem createPoloniexSignature_is_hex (values : Values) (secret : String) :
    createPoloniexSignature values secret
        = hexEncodeToString (getHMacSha512 (bytesOf (Values.Encode values)) (bytesOf secret))
    ∧ (getHMacSha512 (bytesOf (Values.Encode values)) (bytesOf secret)).length = 64
    ∧ (createPoloniexSignature values secret).length = 128
    ∧ ∀ c ∈ (createPoloniexSignature values secret).data,
        ('0' ≤ c ∧ c ≤ '9') ∨ ('a' ≤ c ∧ c ≤ 'f') := by
  refine ⟨rfl, getHMacSha512_length _ _, ?_, ?_⟩
  · unfold createPoloniexSignature
    simp only [hexEncodeToString_length, getHMacSha512_length]
  · intro c hc
    exact hextable_range c (hexEncodeToString_mem _ c hc)

/-- C3: a signed call is a POST carrying the headers `Key` (the client's key) and `Sign`;
an unsigned call is a GET carrying neither, and leaves the parameters as they were (no
nonce is added); both carry `Content-Type: application/x-www-form-urlencoded`. -/
theorem query_method_and_headers (api : PoloniexApi) (now : Int) (url : String)
    (params : Values) :
    ((query api now url params true).1.method = "POST"
      ∧ GoMap.get (query api now url params true).1.headers "Key" = some api.Key
      ∧ GoMap.get (query api now url params true).1.headers "Sign"
          = some (createPoloniexSignature (query api now url params true).2 api.secret)
      ∧ GoMap.get (query api now url params true).1.headers "Content-Type"
          = some "application/x-www-form-urlencoded")
    ∧ ((query api now url params false).1.method = "GET"
      ∧ GoMap.get (query api now url params false).1.headers "Key" = none
      ∧ GoMap.get (query api now url params false).1.headers "Sign" = none
      ∧ (query api now url params false).2 = params
      ∧ (query api now url params false).1.url = url ++ "?" ++ Values.Encode params
      ∧ GoMap.get (query api now url params false).1.headers "Content-Type"
          = some "application/x-www-form-urlencoded") := by
  refine ⟨⟨rfl, ?_, ?_, query_contentType _ _ _ _ _⟩,
    ⟨rfl, ?_, ?_, rfl, rfl, query_contentType _ _ _ _ _⟩⟩
  · rw [query_headers _ _ _ _ _ _ (by decide) (by decide)]; rfl
  · rw [query_headers _ _ _ _ _ _ (by decide) (by decide)]; rfl
  · rw [query_headers _ _ _ _ _ _ (by decide) (by decide)]; rfl
  · rw [query_headers _ _ _ _ _ _ (by decide) (by decide)]; rfl

/-- C4: after the signing step the parameter set holds exactly one value under `nonce`,
the decimal rendering of the nanosecond reading divided by 1000, and every other key holds
what it held before. -/
theorem nonce_overwritten_others_kept (api : PoloniexApi) (now : Int) (url : String)
    (params : Values) (k : String) :
    GoMap.get (query api now url params true).2 k
      = if k = "nonce" then some [sprintfD (Int.tdiv now 1000)] else GoMap.get params k := by
  rw [query_params_signed]
  by_cases h : k = "nonce"
  · rw [if_pos h, h]
    exact GoMap.get_set_self _ _ _
  · rw [if_neg h]
    exact GoMap.get_set_of_ne _ _ _ _ h

/-- C5 (as stated, refuted): two signed calls at the readings 1000 ns and 1001 ns, the
second later than the first, both emit the nonce `1`. -/
theorem nonce_reused_within_microsecond :
    (1000 : Int) < 1001
    ∧ GoMap.get (query (New "key" "secret") 1000 "https://poloniex.com/tradingApi"
        [("command", ["returnBalances"])] true).2 "nonce" = some ["1"]
    ∧ GoMap.get (query (New "key" "secret") 1001 "https://poloniex.com/tradingApi"
        [("command", ["returnBalances"])] true).2 "nonce" = some ["1"] := by
  refine ⟨by decide, ?_, ?_⟩ <;> rw [query_params_signed] <;> decide

/-- C5 (amended): the nonce is non-decreasing in the clock reading: for readings
`t1 ≤ t2` the nonces are the renderings of `t1/1000` and `t2/1000` with
`t1/1000 ≤ t2/1000`, and the second is strictly greater when the readings are not
negative and at least 1000 ns apart. -/
theorem nonce_monotone (api : PoloniexApi) (url : String) (p1 p2 : Values) (t1 t2 : Int)
    (h : t1 ≤ t2) :
    GoMap.get (query api t1 url p1 true).2 "nonce" = some [sprintfD (Int.tdiv t1 1000)]
    ∧ GoMap.get (query api t2 url p2 true).2 "nonce" = some [sprintfD (Int.tdiv t2 1000)]
    ∧ Int.tdiv t1 1000 ≤ Int.tdiv t2 1000
    ∧ (0 ≤ t1 → t1 + 1000 ≤ t2 → Int.tdiv t1 1000 < Int.tdiv t2 1000) := by
  refine ⟨?_, ?_, ?_, ?_⟩
  · rw [query_params_signed]; exact GoMap.get_set_self _ _ _
  · rw [query_params_signed]; exact GoMap.get_set_self _ _ _
  · rcases tdiv_thousand t1 with ⟨a1, e1⟩ | ⟨a1, e1⟩ <;>
      rcases tdiv_thousand t2 with ⟨a2, e2⟩ | ⟨a2, e2⟩ <;> rw [e1, e2] <;> omega
  · intro h0 h1
    rcases tdiv_thousand t1 with ⟨a1, e1⟩ | ⟨a1, e1⟩ <;>
      rcases tdiv_thousand t2 with ⟨a2, e2⟩ | ⟨a2, e2⟩ <;> rw [e1, e2] <;> omega

/-- The instance of the amended C5 at the readings 1000 ns and 2000 ns. -/
theorem nonce_monotone_witness :
    (1000 : Int) ≤ 2000
    ∧ GoMap.get (query (New "key" "secret") 1000 "https://poloniex.com/tradingApi"
        [("command", ["returnBalances"])] true).2 "nonce" = some [sprintfD (Int.tdiv 1000 1000)]
    ∧ Int.tdiv 1000 1000 < Int.tdiv 2000 1000 :=
  ⟨by decide,
    (nonce_monotone (New "key" "secret") "https://poloniex.com/tradingApi"
      [("command", ["returnBalances"])] [("command", ["returnBalances"])] 1000 2000
      (by decide)).1,
    (nonce_monotone (New "key" "secret") "https://poloniex.com/tradingApi"
      [("command", ["returnBalances"])] [("command", ["returnBalances"])] 1000 2000
      (by decide)).2.2.2 (by decide) (by decide)⟩

theorem createPoloniexSignature_eq_of_get_eq (a b : Values) (secret : String)
    (h : ∀ k, GoMap.get a k = GoMap.get b k) :
    createPoloniexSignature a secret = createPoloniexSignature b secret := by
  unfold createPoloniexSignature
  rw [Encode_eq_of_get_eq a b h]

theorem get_set_comm (m : Values) (k1 k2 v1 v2 : String) (h : k1 ≠ k2) (k : String) :
    GoMap.get (Values.Set (Values.Set m k1 v1) k2 v2) k
      = GoMap.get (Values.Set (Values.Set m k2 v2) k1 v1) k := by
  unfold Values.Set
  by_cases e1 : k = k1
  · subst e1
    rw [GoMap.get_set_of_ne _ _ _ _ h, GoMap.get_set_self, GoMap.get_set_self]
  · by_cases e2 : k = k2
    · subst e2
      rw [GoMap.get_set_self, GoMap.get_set_of_ne _ _ _ _ e1, GoMap.get_set_self]
    · rw [GoMap.get_set_of_ne _ _ _ _ e2, GoMap.get_set_of_ne _ _ _ _ e1,
        GoMap.get_set_of_ne _ _ _ _ e1, GoMap.get_set_of_ne _ _ _ _ e2]

/-- C6: the canonical encoding and the signature depend on the contents of the parameter
set and on the secret only: two parameter sets holding the same values under every key,
in whatever order the map holds or yields them, have the same encoding and, under the same
secret, the same signature. -/
theorem encode_and_signature_deterministic (a b : Values) (secret : String)
    (h : ∀ k, GoMap.get a k = GoMap.get b k) :
    Values.Encode a = Values.Encode b
    ∧ createPoloniexSignature a secret = createPoloniexSignature b secret :=
  ⟨Encode_eq_of_get_eq a b h, createPoloniexSignature_eq_of_get_eq a b secret h⟩

/-- The instance of C6 at one parameter set held in two orders. -/
theorem encode_and_signature_deterministic_witness :
    (∀ k, GoMap.get ([("command", ["returnBalances"]), ("nonce", ["1"])] : Values) k
        = GoMap.get ([("nonce", ["1"]), ("command", ["returnBalances"])] : Values) k)
    ∧ Values.Encode [("command", ["returnBalances"]), ("nonce", ["1"])]
        = Values.Encode [("nonce", ["1"]), ("command", ["returnBalances"])]
    ∧ createPoloniexSignature [("command", ["returnBalances"]), ("nonce", ["1"])] "secret"
        = createPoloniexSignature [("nonce", ["1"]), ("command", ["returnBalances"])] "secret" :=
  have h : ∀ k, GoMap.get ([("command", ["returnBalances"]), ("nonce", ["1"])] : Values) k
      = GoMap.get ([("nonce", ["1"]), ("command", ["returnBalances"])] : Values) k := by
    intro k
    simp only [GoMap.get]
    split_ifs with h1 h2 <;> first | rfl | (exfalso; rw [← h1] at h2; revert h2; decide)
  ⟨h, encode_and_signature_deterministic _ _ "secret" h⟩

/-- C7 (as stated, refuted): no two parameter sets holding the same entries have different
canonical encodings and different signatures, however the entries were inserted. -/
theorem no_order_dependent_encoding :
    ¬ ∃ (a b : Values) (secret : String), (∀ k, GoMap.get a k = GoMap.get b k)
        ∧ Values.Encode a ≠ Values.Encode b
        ∧ createPoloniexSignature a secret ≠ createPoloniexSignature b secret := by
  rintro ⟨a, b, secret, h, hne, -⟩
  exact hne (Encode_eq_of_get_eq a b h)

/-- C7 (amended): the insertion order of a parameter set is not significant: setting two
different keys in either order gives the same canonical encoding (`Encode` sorts by key)
and the same signature. -/
theorem set_order_irrelevant (m : Values) (k1 k2 v1 v2 secret : String) (h : k1 ≠ k2) :
    Values.Encode (Values.Set (Values.Set m k1 v1) k2 v2)
        = Values.Encode (Values.Set (Values.Set m k2 v2) k1 v1)
    ∧ createPoloniexSignature (Values.Set (Values.Set m k1 v1) k2 v2) secret
        = createPoloniexSignature (Values.Set (Values.Set m k2 v2) k1 v1) secret :=
  ⟨Encode_eq_of_get_eq _ _ (get_set_comm m k1 k2 v1 v2 h),
    createPoloniexSignature_eq_of_get_eq _ _ secret (get_set_comm m k1 k2 v1 v2 h)⟩

/-- The instance of the amended C7 at `command` and `currencyPair`: the two maps differ as lists, their encodings and signatures do not. -/
theorem set_order_irrelevant_witness :
    "command" ≠ "currencyPair"
    ∧ Values.Set (Values.Set [] "command" "returnOrderBook") "currencyPair" "BTC_NXT"
        ≠ Values.Set (Values.Set [] "currencyPair" "BTC_NXT") "command" "returnOrderBook"
    ∧ Values.Encode (Values.Set (Values.Set [] "command" "returnOrderBook")
          "currencyPair" "BTC_NXT")
        = Values.Encode (Values.Set (Values.Set [] "currencyPair" "BTC_NXT")
          "command" "returnOrderBook")
    ∧ createPoloniexSignature (Values.Set (Values.Set [] "command" "returnOrderBook")
          "currencyPair" "BTC_NXT") "secret"
        = createPoloniexSignature (Values.Set (Values.Set [] "currencyPair" "BTC_NXT")
          "command" "returnOrderBook") "secret" :=
  ⟨by decide, by decide,
    set_order_irrelevant [] "command" "currencyPair" "returnOrderBook" "BTC_NXT" "secret"
      (by decide)⟩

/-- C8 (as stated, refuted): the distinct secrets `secret` and `secret` followed by a NUL
byte sign the same parameter set with the same signature. -/
theorem distinct_secrets_same_signature :
    "secret" ≠ "secret\x00"
    ∧ createPoloniexSignature [("command", ["returnBalances"]), ("nonce", ["1"])] "secret"
        = createPoloniexSignature [("command", ["returnBalances"]), ("nonce", ["1"])]
            "secret\x00" := by
  refine ⟨by decide, ?_⟩
  unfold createPoloniexSignature
  have e : bytesOf "secret\x00" = bytesOf "secret" ++ [0] := by decide
  have l : (bytesOf "secret").length < 128 := by decide
  rw [getHMacSha512_eq_of_keyBlock _ (bytesOf "secret\x00") (bytesOf "secret")
    (by rw [e]; exact hmacKeyBlock_append_zero _ l)]

/-- C8 (amended): two signatures differ exactly when the two HMAC-SHA512 digests differ
(the hex rendering is injective); the digest depends on the secret through its 128-byte
key block only, so secrets with the same key block sign every parameter set alike. -/
theorem signature_differs_iff_digest_differs (p1 p2 : Values) (s1 s2 : String) :
    (createPoloniexSignature p1 s1 ≠ createPoloniexSignature p2 s2
      ↔ getHMacSha512 (bytesOf (Values.Encode p1)) (bytesOf s1)
          ≠ getHMacSha512 (bytesOf (Values.Encode p2)) (bytesOf s2))
    ∧ (hmacKeyBlock (bytesOf s1) = hmacKeyBlock (bytesOf s2)
        → createPoloniexSignature p1 s1 = createPoloniexSignature p1 s2) := by
  constructor
  · unfold createPoloniexSignature
    constructor
    · intro h e
      exact h (by rw [e])
    · intro h e
      exact h (hexEncodeToString_inj _ _ (getHMacSha512_lt _ _) (getHMacSha512_lt _ _) e)
  · intro h
    unfold createPoloniexSignature
    rw [getHMacSha512_eq_of_keyBlock _ _ _ h]

/-- The instance of the amended C8 at a secret and the same secret followed by a NUL byte. -/
theorem signature_differs_iff_digest_differs_witness :
    hmacKeyBlock (bytesOf "secret") = hmacKeyBlock (bytesOf "secret\x00")
    ∧ createPoloniexSignature [("command", ["returnBalances"])] "secret"
        = createPoloniexSignature [("command", ["returnBalances"])] "secret\x00" :=
  ⟨by decide,
    (signature_differs_iff_digest_differs [("command", ["returnBalances"])]
      [("command", ["returnBalances"])] "secret" "secret\x00").2 (by decide)⟩

/-! ## Loops over maps -/

theorem get_of_mem_of_nodupKeys {α : Type} (l : List (String × α))
    (hl : (l.map Prod.fst).Nodup) (k : String) (v : α) (h : (k, v) ∈ l) :
    GoMap.get l k = some v := by
  induction l with
  | nil => simp at h
  | cons e l ih =>
    obtain ⟨k0, v0⟩ := e
    simp only [List.map_cons, List.nodup_cons] at hl
    rcases List.mem_cons.mp h with h1 | h1
    · cases h1
      simp [GoMap.get]
    · have hk : k0 ≠ k := by
        intro e
        subst e
        exact hl.1 (List.mem_map.mpr ⟨(k0, v), h1, rfl⟩)
      simp only [GoMap.get, hk, if_false]
      exact ih hl.2 h1

theorem mem_entries_iff {α : Type} (m : GoMap α) (k : String) (v : α) :
    (k, v) ∈ GoMap.entries m ↔ GoMap.get m k = some v := by
  rw [← GoMap.get_entries]
  exact ⟨get_of_mem_of_nodupKeys _ (GoMap.entries_nodupKeys m) k v,
    GoMap.mem_keys_of_get _ k v⟩

theorem get_none_of_not_mem_keys {α : Type} (l : List (String × α)) (k : String)
    (h : k ∉ l.map Prod.fst) : GoMap.get l k = none := by
  induction l with
  | nil => rfl
  | cons e l ih =>
    obtain ⟨k0, v0⟩ := e
    simp only [List.map_cons, List.mem_cons, not_or] at h
    simp only [GoMap.get, Ne.symm h.1, if_false]
    exact ih h.2

/-- A component of the state that only the key `κ` writes is, after the loop, what the
binding of `κ` made it, or what it was when the map has no such key. -/
theorem rangeLoop_field {β σ ρ X : Type} (body : String → β → σ → Flow σ ρ) (κ : String)
    (π : σ → X) (R : β → X → Prop)
    (hbody : ∀ k v s s', body k v s = Flow.next s' →
      (k ≠ κ → π s' = π s) ∧ (k = κ → R v (π s')))
    (l : List (String × β)) (hl : (l.map Prod.fst).Nodup) (s e : σ)
    (h : rangeLoop body l s = Flow.next e) :
    (GoMap.get l κ = none → π e = π s) ∧ (∀ v, GoMap.get l κ = some v → R v (π e)) := by
  induction l generalizing s with
  | nil =>
    simp only [rangeLoop, Flow.next.injEq] at h
    subst h
    simp [GoMap.get]
  | cons x l ih =>
    obtain ⟨k, v⟩ := x
    simp only [List.map_cons, List.nodup_cons] at hl
    simp only [rangeLoop] at h
    cases hb : body k v s with
    | leave r => rw [hb] at h; cases h
    | next s' =>
      rw [hb] at h
      obtain ⟨ih1, ih2⟩ := ih hl.2 s' h
      obtain ⟨b1, b2⟩ := hbody k v s s' hb
      by_cases hk : k = κ
      · subst hk
        have hn := get_none_of_not_mem_keys l k hl.1
        have hg : GoMap.get ((k, v) :: l) k = some v := by simp [GoMap.get]
        rw [hg]
        constructor
        · intro h0
          cases h0
        · intro v' hv'
          cases hv'
          rw [ih1 hn]
          exact b2 rfl
      · simp only [GoMap.get, hk, if_false]
        exact ⟨fun h0 => (ih1 h0).trans (b1 hk), ih2⟩

/-- The loop runs to its end exactly when the body does for every binding, provided that
whether the body does depends on the binding only. -/
theorem rangeLoop_next_iff {β σ ρ : Type} (body : String → β → σ → Flow σ ρ)
    (ok : String → β → Prop)
    (hok : ∀ k v s, (∃ s', body k v s = Flow.next s') ↔ ok k v)
    (l : List (String × β)) (s : σ) :
    (∃ e, rangeLoop body l s = Flow.next e) ↔ ∀ k v, (k, v) ∈ l → ok k v := by
  induction l generalizing s with
  | nil => simp [rangeLoop]
  | cons x l ih =>
    obtain ⟨k, v⟩ := x
    simp only [rangeLoop]
    constructor
    · rintro ⟨e, he⟩ k' v' hm
      cases hb : body k v s with
      | leave r => rw [hb] at he; cases he
      | next s' =>
        rw [hb] at he
        rcases List.mem_cons.mp hm with h1 | h1
        · cases h1
          exact (hok k v s).mp ⟨s', hb⟩
        · exact (ih s').mp ⟨e, he⟩ k' v' h1
    · intro h
      obtain ⟨s', hs'⟩ := (hok k v s).mpr (h k v (List.mem_cons_self _ _))
      rw [hs']
      exact (ih s').mpr fun k' v' hm => h k' v' (List.mem_cons_of_mem _ hm)

/-- What the loop leaves the function with is something its body leaves it with. -/
theorem rangeLoop_leave {β σ ρ : Type} (body : String → β → σ → Flow σ ρ) (P : ρ → Prop)
    (hbody : ∀ k v s r, body k v s = Flow.leave r → P r)
    (l : List (String × β)) (s : σ) (r : ρ) (h : rangeLoop body l s = Flow.leave r) : P r := by
  induction l generalizing s with
  | nil => simp [rangeLoop] at h
  | cons x l ih =>
    obtain ⟨k, v⟩ := x
    simp only [rangeLoop] at h
    cases hb : body k v s with
    | leave r' =>
      rw [hb] at h
      cases h
      exact hbody k v s _ hb
    | next s' =>
      rw [hb] at h
      exact ih s' h

/-! ## The order book -/

theorem orderBookBody_next_of_next {F : Type} (rt : Runtime F) (k : String) (v : JSON F)
    (s1 s2 : OrderBookEntry F) (h : ∃ s', orderBookBody rt k v s1 = Flow.next s') :
    ∃ s', orderBookBody rt k v s2 = Flow.next s' := by
  obtain ⟨s', h⟩ := h
  unfold orderBookBody at h ⊢
  split_ifs at h ⊢ <;> (try split at h) <;> (try split at h) <;> cases h <;> simp_all

theorem orderBookBody_leave {F : Type} (rt : Runtime F) (k : String) (v : JSON F)
    (s : OrderBookEntry F) (r : Outcome (OrderBookEntry F × Option Error))
    (h : orderBookBody rt k v s = Flow.leave r) : r.failed = true := by
  unfold orderBookBody at h
  split_ifs at h <;> (try split at h) <;> (try split at h) <;> cases h <;> rfl

theorem orderBookBody_asks {F : Type} (rt : Runtime F) (k : String) (v : JSON F)
    (s s' : OrderBookEntry F) (h : orderBookBody rt k v s = Flow.next s') :
    (k ≠ "asks" → s'.Asks = s.Asks)
    ∧ (k = "asks" → interfaceTo2FloatArray rt v = Outcome.returns (s'.Asks, none)) := by
  unfold orderBookBody at h
  split_ifs at h with h1 h2 h3 h4 <;> (try split at h) <;> (try split at h) <;> cases h <;>
    simp_all

theorem orderBookBody_bids {F : Type} (rt : Runtime F) (k : String) (v : JSON F)
    (s s' : OrderBookEntry F) (h : orderBookBody rt k v s = Flow.next s') :
    (k ≠ "bids" → s'.Bids = s.Bids)
    ∧ (k = "bids" → interfaceTo2FloatArray rt v = Outcome.returns (s'.Bids, none)) := by
  unfold orderBookBody at h
  split_ifs at h with h1 h2 h3 h4 <;> (try split at h) <;> (try split at h) <;> cases h <;>
    simp_all

theorem orderBookBody_isFrozen {F : Type} (rt : Runtime F) (k : String) (v : JSON F)
    (s s' : OrderBookEntry F) (h : orderBookBody rt k v s = Flow.next s') :
    (k ≠ "isFrozen" → s'.IsFrozen = s.IsFrozen)
    ∧ (k = "isFrozen" → ∃ str, v = JSON.str str ∧ rt.Atoi str = Except.ok s'.IsFrozen) := by
  unfold orderBookBody at h
  split_ifs at h with h1 h2 h3 h4 <;> (try split at h) <;> (try split at h) <;> cases h <;>
    simp_all

theorem orderBookBody_seq {F : Type} (rt : Runtime F) (k : String) (v : JSON F)
    (s s' : OrderBookEntry F) (h : orderBookBody rt k v s = Flow.next s') :
    (k ≠ "seq" → s'.Seq = s.Seq) ∧ (k = "seq" → v = JSON.num s'.Seq) := by
  unfold orderBookBody at h
  split_ifs at h with h1 h2 h3 h4 <;> (try split at h) <;> (try split at h) <;> cases h <;>
    simp_all

/-- Two runs of a loop over two lists of bindings that agree on the key `κ` end with the
same value of the component that `κ` alone writes. -/
theorem rangeLoop_field_eq {β σ ρ X : Type} (body : String → β → σ → Flow σ ρ) (κ : String)
    (π : σ → X) (R : β → X → Prop)
    (hbody : ∀ k v s s', body k v s = Flow.next s' →
      (k ≠ κ → π s' = π s) ∧ (k = κ → R v (π s')))
    (hfun : ∀ v x y, R v x → R v y → x = y)
    (l l' : List (String × β)) (hl : (l.map Prod.fst).Nodup) (hl' : (l'.map Prod.fst).Nodup)
    (hget : GoMap.get l κ = GoMap.get l' κ) (s e e' : σ)
    (h : rangeLoop body l s = Flow.next e) (h' : rangeLoop body l' s = Flow.next e') :
    π e = π e' := by
  obtain ⟨a1, a2⟩ := rangeLoop_field body κ π R hbody l hl s e h
  obtain ⟨b1, b2⟩ := rangeLoop_field body κ π R hbody l' hl' s e' h'
  cases hg : GoMap.get l κ with
  | none => rw [a1 hg, b1 (hget ▸ hg)]
  | some v => exact hfun v _ _ (a2 v hg) (b2 v (hget ▸ hg))

theorem orderBookLoop_congr {F : Type} (rt : Runtime F) (f f' : GoMap (JSON F))
    (hff : ∀ k, GoMap.get f k = GoMap.get f' k) (s e : OrderBookEntry F)
    (h : rangeLoop (orderBookBody rt) (GoMap.entries f) s = Flow.next e) :
    rangeLoop (orderBookBody rt) (GoMap.entries f') s = Flow.next e := by
  have hok : ∀ k v (s : OrderBookEntry F), (∃ s', orderBookBody rt k v s = Flow.next s')
      ↔ ∃ s', orderBookBody rt k v (OrderBookEntry.empty rt) = Flow.next s' :=
    fun k v s => ⟨orderBookBody_next_of_next rt k v _ _, orderBookBody_next_of_next rt k v _ _⟩
  have hall := (rangeLoop_next_iff (orderBookBody rt) _ hok (GoMap.entries f) s).mp ⟨e, h⟩
  obtain ⟨e', he'⟩ := (rangeLoop_next_iff (orderBookBody rt) _ hok (GoMap.entries f') s).mpr
    (fun k v hm => hall k v ((mem_entries_iff f k v).mpr
      ((hff k).trans ((mem_entries_iff f' k v).mp hm))))
  have hn := GoMap.entries_nodupKeys f
  have hn' := GoMap.entries_nodupKeys f'
  have hg : ∀ κ, GoMap.get (GoMap.entries f) κ = GoMap.get (GoMap.entries f') κ := fun κ => by
    rw [GoMap.get_entries, GoMap.get_entries, hff]
  have e1 : e.Asks = e'.Asks :=
    rangeLoop_field_eq (orderBookBody rt) "asks" OrderBookEntry.Asks
      (fun v x => interfaceTo2FloatArray rt v = Outcome.returns (x, none))
      (orderBookBody_asks rt) (fun v x y hx hy => by dsimp only at hx hy; rw [hx] at hy; cases hy; rfl)
      _ _ hn hn' (hg _) s e e' h he'
  have e2 : e.Bids = e'.Bids :=
    rangeLoop_field_eq (orderBookBody rt) "bids" OrderBookEntry.Bids
      (fun v x => interfaceTo2FloatArray rt v = Outcome.returns (x, none))
      (orderBookBody_bids rt) (fun v x y hx hy => by dsimp only at hx hy; rw [hx] at hy; cases hy; rfl)
      _ _ hn hn' (hg _) s e e' h he'
  have e3 : e.IsFrozen = e'.IsFrozen :=
    rangeLoop_field_eq (orderBookBody rt) "isFrozen" OrderBookEntry.IsFrozen
      (fun v x => ∃ str, v = JSON.str str ∧ rt.Atoi str = Except.ok x)
      (orderBookBody_isFrozen rt)
      (fun v x y hx hy => by
        dsimp only at hx hy
        obtain ⟨a, ha, hx⟩ := hx
        obtain ⟨b, hb, hy⟩ := hy
        rw [ha] at hb
        cases hb
        rw [hx] at hy
        cases hy
        rfl)
      _ _ hn hn' (hg _) s e e' h he'
  have e4 : e.Seq = e'.Seq :=
    rangeLoop_field_eq (orderBookBody rt) "seq" OrderBookEntry.Seq
      (fun v x => v = JSON.num x)
      (orderBookBody_seq rt) (fun v x y hx hy => by dsimp only at hx hy; rw [hx] at hy; cases hy; rfl)
      _ _ hn hn' (hg _) s e e' h he'
  rw [he']
  cases e
  cases e'
  simp only [OrderBookEntry.mk.injEq, Flow.next.injEq] at *
  exact ⟨e3.symm, e4.symm, e1.symm, e2.symm⟩

theorem getOrderBook_obj_returns_iff {F : Type} (rt : Runtime F) (f : GoMap (JSON F))
    (e : OrderBookEntry F) :
    getOrderBookFromInterface rt (JSON.obj f) = Outcome.returns (e, none)
      ↔ rangeLoop (orderBookBody rt) (GoMap.entries f) (OrderBookEntry.empty rt)
          = Flow.next e := by
  unfold getOrderBookFromInterface
  cases hl : rangeLoop (orderBookBody rt) (GoMap.entries f) (OrderBookEntry.empty rt) with
  | next order =>
    simp only [hl]
    constructor
    · intro h
      cases h
      rfl
    · intro h
      cases h
      rfl
  | leave r =>
    have hf := rangeLoop_leave (orderBookBody rt) (fun r => r.failed = true)
      (orderBookBody_leave rt) _ _ r hl
    simp only [hl]
    constructor
    · intro h
      rw [h] at hf
      cases hf
    · intro h
      cases h

theorem getOrderBook_congr {F : Type} (rt : Runtime F) (r r' : JSON F) (h : sameRecord r r')
    (e : OrderBookEntry F) (he : getOrderBookFromInterface rt r = Outcome.returns (e, none)) :
    getOrderBookFromInterface rt r' = Outcome.returns (e, none) := by
  rcases h with rfl | ⟨f, f', rfl, rfl, hff⟩
  · exact he
  · rw [getOrderBook_obj_returns_iff] at he ⊢
    exact orderBookLoop_congr rt f f' hff _ e he

theorem sameRecord_symm {F : Type} (r r' : JSON F) (h : sameRecord r r') : sameRecord r' r := by
  rcases h with rfl | ⟨f, f', rfl, rfl, hff⟩
  · exact Or.inl rfl
  · exact Or.inr ⟨f', f, rfl, rfl, fun k => (hff k).symm⟩

theorem ApiPublicOrderBook_single {F : Type} (rt : Runtime F) (p : String) (hp : p ≠ "all")
    (r : JSON F) :
    ApiPublicOrderBook rt p (Except.ok r)
      = match getOrderBookFromInterface rt r with
        | Outcome.panics q => Outcome.panics q
        | Outcome.returns (_, some err) => Outcome.returns (none, some err)
        | Outcome.returns (order, none) => Outcome.returns (some [(p, order)], none) := by
  simp only [ApiPublicOrderBook, hp, ne_eq, not_false_eq_true, if_true]
  rfl

theorem ApiPublicOrderBook_all_one {F : Type} (rt : Runtime F) (p : String) (r : JSON F) :
    ApiPublicOrderBook rt "all" (Except.ok (JSON.obj [(p, r)]))
      = match getOrderBookFromInterface rt r with
        | Outcome.panics q => Outcome.panics q
        | Outcome.returns (_, some err) => Outcome.returns (none, some err)
        | Outcome.returns (order, none) => Outcome.returns (some [(p, order)], none) := by
  cases hg : getOrderBookFromInterface rt r with
  | panics q =>
    simp [ApiPublicOrderBook, GoMap.entries, rangeLoop, allMarketsBody, hg]
  | returns x =>
    obtain ⟨o, _ | err⟩ := x <;>
      simp [ApiPublicOrderBook, GoMap.entries, rangeLoop, allMarketsBody, hg, GoMap.set]

/-- C9: for a market `p` other than `all` and a decoded record, normalising the bare
record for the request `p` and normalising the one-entry object `{p: record}` for the
request `all` have the same outcome: the two calls are equal when the members of the
record are visited in the same order, and whatever the order in either call, both fail or
both return the same map, whose one entry is keyed by `p`. -/
theorem orderBook_shape_uniformity {F : Type} (rt : Runtime F) (p : String) (r r' : JSON F)
    (hp : p ≠ "all") (h : sameRecord r r') :
    ApiPublicOrderBook rt "all" (Except.ok (JSON.obj [(p, r)]))
      = ApiPublicOrderBook rt p (Except.ok r)
    ∧ (((ApiPublicOrderBook rt p (Except.ok r)).failed = true
        ∧ (ApiPublicOrderBook rt "all" (Except.ok (JSON.obj [(p, r')]))).failed = true)
      ∨ ∃ order,
          ApiPublicOrderBook rt p (Except.ok r) = Outcome.returns (some [(p, order)], none)
          ∧ ApiPublicOrderBook rt "all" (Except.ok (JSON.obj [(p, r')]))
              = Outcome.returns (some [(p, order)], none)) := by
  refine ⟨by rw [ApiPublicOrderBook_single rt p hp, ApiPublicOrderBook_all_one], ?_⟩
  rw [ApiPublicOrderBook_single rt p hp, ApiPublicOrderBook_all_one]
  cases hg : getOrderBookFromInterface rt r with
  | panics q =>
    left
    refine ⟨rfl, ?_⟩
    cases hg' : getOrderBookFromInterface rt r' with
    | panics q' => rfl
    | returns x =>
      obtain ⟨o, _ | err⟩ := x
      · rw [getOrderBook_congr rt r' r (sameRecord_symm r r' h) o hg'] at hg
        cases hg
      · rfl
  | returns x =>
    obtain ⟨o, _ | err⟩ := x
    · right
      exact ⟨o, rfl, by rw [getOrderBook_congr rt r r' h o hg]⟩
    · left
      refine ⟨rfl, ?_⟩
      cases hg' : getOrderBookFromInterface rt r' with
      | panics q' => rfl
      | returns x =>
        obtain ⟨o', _ | err'⟩ := x
        · rw [getOrderBook_congr rt r' r (sameRecord_symm r r' h) o' hg'] at hg
          cases hg
        · rfl

/-- The instance of C9 at the sample record and the market `BTC_NXT`. -/
theorem orderBook_shape_uniformity_witness :
    "BTC_NXT" ≠ "all"
    ∧ sameRecord sampleRecord sampleRecordSwapped
    ∧ ApiPublicOrderBook sampleRuntime "all" (Except.ok (JSON.obj [("BTC_NXT", sampleRecord)]))
        = ApiPublicOrderBook sampleRuntime "BTC_NXT" (Except.ok sampleRecord)
    ∧ (((ApiPublicOrderBook sampleRuntime "BTC_NXT" (Except.ok sampleRecord)).failed = true
        ∧ (ApiPublicOrderBook sampleRuntime "all"
            (Except.ok (JSON.obj [("BTC_NXT", sampleRecordSwapped)]))).failed = true)
      ∨ ∃ order,
          ApiPublicOrderBook sampleRuntime "BTC_NXT" (Except.ok sampleRecord)
            = Outcome.returns (some [("BTC_NXT", order)], none)
          ∧ ApiPublicOrderBook sampleRuntime "all"
              (Except.ok (JSON.obj [("BTC_NXT", sampleRecordSwapped)]))
              = Outcome.returns (some [("BTC_NXT", order)], none)) :=
  have hs : sameRecord sampleRecord sampleRecordSwapped :=
    Or.inr ⟨_, _, rfl, rfl, fun k => by
      simp only [GoMap.get]
      split_ifs with h1 h2 <;> first | rfl | (exfalso; rw [← h1] at h2; revert h2; decide)⟩
  ⟨by decide, hs,
    orderBook_shape_uniformity sampleRuntime "BTC_NXT" sampleRecord sampleRecordSwapped
      (by decide) hs⟩

/-! ## The 24-hour volume -/

theorem numericString_isSome {F : Type} (rt : Runtime F) (v : JSON F)
    (h : (numericString rt v).isSome = true) :
    ∃ s x, v = JSON.str s ∧ rt.ParseFloat s = Except.ok x ∧ numericString rt v = some x := by
  cases v with
  | str s =>
    cases hp : rt.ParseFloat s with
    | ok x => exact ⟨s, x, rfl, hp, by simp [numericString, hp]⟩
    | error e => simp [numericString, hp] at h
  | _ => simp [numericString] at h

theorem volumeSubLoop {F : Type} (rt : Runtime F) (l : List (String × JSON F))
    (hl : (l.map Prod.fst).Nodup) (acc : GoMap F)
    (h : ∀ k v, (k, v) ∈ l → (numericString rt v).isSome = true) :
    ∃ o, rangeLoop (volumeSubBody rt) l acc = Flow.next o
      ∧ ∀ sk, GoMap.get o sk
          = match GoMap.get l sk with
            | some v => numericString rt v
            | none => GoMap.get acc sk := by
  induction l generalizing acc with
  | nil => exact ⟨acc, rfl, fun sk => rfl⟩
  | cons e l ih =>
    obtain ⟨k, v⟩ := e
    simp only [List.map_cons, List.nodup_cons] at hl
    obtain ⟨s, x, rfl, hp, hnum⟩ := numericString_isSome rt v (h k v (List.mem_cons_self _ _))
    obtain ⟨o, ho, hget⟩ := ih hl.2 (GoMap.set acc k x)
      (fun k' v' hm => h k' v' (List.mem_cons_of_mem _ hm))
    refine ⟨o, ?_, fun sk => ?_⟩
    · simp only [rangeLoop, volumeSubBody, hp]
      exact ho
    · rw [hget sk]
      by_cases hk : k = sk
      · subst hk
        rw [get_none_of_not_mem_keys l k hl.1]
        simp only [GoMap.get, if_true]
        rw [GoMap.get_set_self, hnum]
      · simp only [GoMap.get, hk, if_false]
        cases GoMap.get l sk with
        | some v' => rfl
        | none => exact GoMap.get_set_of_ne _ _ _ _ (Ne.symm hk)

/-- A component of the state that only the key `κ` writes is, after the loop, what the
binding of `κ` made of its first value, or that first value when the map has no such key. -/
theorem rangeLoop_field_rel {β σ ρ X : Type} (body : String → β → σ → Flow σ ρ) (κ : String)
    (π : σ → X) (R : β → X → X → Prop)
    (hbody : ∀ k v s s', body k v s = Flow.next s' →
      (k ≠ κ → π s' = π s) ∧ (k = κ → R v (π s) (π s')))
    (l : List (String × β)) (hl : (l.map Prod.fst).Nodup) (s e : σ)
    (h : rangeLoop body l s = Flow.next e) :
    (GoMap.get l κ = none → π e = π s) ∧ (∀ v, GoMap.get l κ = some v → R v (π s) (π e)) := by
  induction l generalizing s with
  | nil =>
    simp only [rangeLoop, Flow.next.injEq] at h
    subst h
    simp [GoMap.get]
  | cons x l ih =>
    obtain ⟨k, v⟩ := x
    simp only [List.map_cons, List.nodup_cons] at hl
    simp only [rangeLoop] at h
    cases hb : body k v s with
    | leave r => rw [hb] at h; cases h
    | next s' =>
      rw [hb] at h
      obtain ⟨ih1, ih2⟩ := ih hl.2 s' h
      obtain ⟨b1, b2⟩ := hbody k v s s' hb
      by_cases hk : k = κ
      · subst hk
        have hn := get_none_of_not_mem_keys l k hl.1
        have hg : GoMap.get ((k, v) :: l) k = some v := by simp [GoMap.get]
        rw [hg]
        constructor
        · intro h0
          cases h0
        · intro v' hv'
          cases hv'
          rw [ih1 hn]
          exact b2 rfl
      · simp only [GoMap.get, hk, if_false]
        rw [← b1 hk]
        exact ⟨ih1, ih2⟩

theorem volumeBody_totals {F : Type} (rt : Runtime F) (κ : String) (k : String) (v : JSON F)
    (s s' : GoMap F × GoMap (GoMap F)) (h : volumeBody rt k v s = Flow.next s') :
    (k ≠ κ → GoMap.get s'.1 κ = GoMap.get s.1 κ)
    ∧ (k = κ → totalsRel rt v (GoMap.get s.1 κ) (GoMap.get s'.1 κ)) := by
  cases v with
  | str str =>
    cases hp : rt.ParseFloat str with
    | error err => simp [volumeBody, typeName, hp] at h
    | ok x =>
      simp only [volumeBody, typeName, hp, if_true, Flow.next.injEq] at h
      subst h
      refine ⟨fun hk => GoMap.get_set_of_ne _ _ _ _ (Ne.symm hk), fun hk => ?_⟩
      subst hk
      simp [totalsRel, GoMap.get_set_self, numericString, hp]
  | obj sub =>
    cases hsub : rangeLoop (volumeSubBody rt) (GoMap.entries sub) [] with
    | leave r => simp [volumeBody, typeName, hsub] at h
    | next outsub =>
      simp only [volumeBody, typeName, hsub, String.reduceEq, if_false, Flow.next.injEq] at h
      subst h
      exact ⟨fun _ => rfl, fun _ => rfl⟩
  | null => simp [volumeBody, typeName] at h
  | bool b => simp [volumeBody, typeName] at h
  | num x => simp [volumeBody, typeName] at h
  | arr items => simp [volumeBody, typeName] at h

theorem volumeBody_markets {F : Type} (rt : Runtime F) (κ : String) (k : String) (v : JSON F)
    (s s' : GoMap F × GoMap (GoMap F)) (h : volumeBody rt k v s = Flow.next s') :
    (k ≠ κ → GoMap.get s'.2 κ = GoMap.get s.2 κ)
    ∧ (k = κ → marketsRel rt v (GoMap.get s.2 κ) (GoMap.get s'.2 κ)) := by
  cases v with
  | str str =>
    cases hp : rt.ParseFloat str with
    | error err => simp [volumeBody, typeName, hp] at h
    | ok x =>
      simp only [volumeBody, typeName, hp, if_true, Flow.next.injEq] at h
      subst h
      exact ⟨fun _ => rfl, fun _ => rfl⟩
  | obj sub =>
    cases hsub : rangeLoop (volumeSubBody rt) (GoMap.entries sub) [] with
    | leave r => simp [volumeBody, typeName, hsub] at h
    | next outsub =>
      simp only [volumeBody, typeName, hsub, String.reduceEq, if_false, Flow.next.injEq] at h
      subst h
      refine ⟨fun hk => GoMap.get_set_of_ne _ _ _ _ (Ne.symm hk), fun hk => ?_⟩
      subst hk
      exact ⟨outsub, GoMap.get_set_self _ _ _, hsub⟩
  | null => simp [volumeBody, typeName] at h
  | bool b => simp [volumeBody, typeName] at h
  | num x => simp [volumeBody, typeName] at h
  | arr items => simp [volumeBody, typeName] at h

theorem volumeBody_next_of_volumeValue {F : Type} (rt : Runtime F) (k : String) (v : JSON F)
    (s : GoMap F × GoMap (GoMap F)) (h : volumeValue rt v) :
    ∃ s', volumeBody rt k v s = Flow.next s' := by
  rcases h with h | ⟨sub, rfl, hsub⟩
  · obtain ⟨str, x, rfl, hp, -⟩ := numericString_isSome rt v h
    exact ⟨(GoMap.set s.1 k x, s.2), by simp only [volumeBody, typeName, hp, if_true]⟩
  · obtain ⟨o, ho, -⟩ := volumeSubLoop rt (GoMap.entries sub) (GoMap.entries_nodupKeys sub) []
      (fun k' v' hm => hsub k' v' ((mem_entries_iff sub k' v').mp hm))
    refine ⟨(s.1, GoMap.set s.2 k o), ?_⟩
    simp [volumeBody, typeName, ho]

/-- The loop runs to its end when its body does for every binding, in every state. -/
theorem rangeLoop_next_of_forall {β σ ρ : Type} (body : String → β → σ → Flow σ ρ)
    (l : List (String × β)) (s : σ)
    (h : ∀ k v s, (k, v) ∈ l → ∃ s', body k v s = Flow.next s') :
    ∃ e, rangeLoop body l s = Flow.next e := by
  induction l generalizing s with
  | nil => exact ⟨s, rfl⟩
  | cons x l ih =>
    obtain ⟨k, v⟩ := x
    obtain ⟨s', hs'⟩ := h k v s (List.mem_cons_self _ _)
    obtain ⟨e, he⟩ := ih s' (fun k' v' s'' hm => h k' v' s'' (List.mem_cons_of_mem _ hm))
    exact ⟨e, by simp only [rangeLoop, hs', he]⟩

/-- C10: for a decoded top-level object whose values are each a well-formed numeric string
or an object of well-formed numeric strings, `ApiPublic24hVolume` succeeds and splits the
keys by the type of their value: a key is in the totals exactly when its value is a
string, with the parsed value; it is in the volumes per market exactly when its value is an
object, with every sub-key and its parsed value and nothing else. -/
theorem volume_split_by_type {F : Type} (rt : Runtime F) (fields : GoMap (JSON F))
    (h : ∀ k v, GoMap.get fields k = some v → volumeValue rt v) :
    ∃ totals out,
      ApiPublic24hVolume rt (Except.ok (JSON.obj fields))
        = Outcome.returns (some totals, some out, none)
      ∧ (∀ k, (GoMap.get totals k).isSome = true ↔ ∃ s, GoMap.get fields k = some (JSON.str s))
      ∧ (∀ k s, GoMap.get fields k = some (JSON.str s) →
          ∃ x, rt.ParseFloat s = Except.ok x ∧ GoMap.get totals k = some x)
      ∧ (∀ k, (GoMap.get out k).isSome = true
          ↔ ∃ sub, GoMap.get fields k = some (JSON.obj sub))
      ∧ (∀ k sub, GoMap.get fields k = some (JSON.obj sub) →
          ∃ outsub, GoMap.get out k = some outsub
            ∧ ∀ sk, GoMap.get outsub sk = (GoMap.get sub sk).bind (numericString rt)) := by
  have hn := GoMap.entries_nodupKeys fields
  obtain ⟨st, hst⟩ := rangeLoop_next_of_forall (volumeBody rt) (GoMap.entries fields) ([], [])
    (fun k v s hm => volumeBody_next_of_volumeValue rt k v s
      (h k v ((mem_entries_iff fields k v).mp hm)))
  have ht : ∀ k, (GoMap.get fields k = none → GoMap.get st.1 k = none)
      ∧ (∀ v, GoMap.get fields k = some v → totalsRel rt v none (GoMap.get st.1 k)) := fun k => by
    have := rangeLoop_field_rel (volumeBody rt) k (fun s => GoMap.get s.1 k) (totalsRel rt)
      (volumeBody_totals rt k) _ hn ([], []) st hst
    rw [GoMap.get_entries] at this
    exact this
  have hm : ∀ k, (GoMap.get fields k = none → GoMap.get st.2 k = none)
      ∧ (∀ v, GoMap.get fields k = some v → marketsRel rt v none (GoMap.get st.2 k)) := fun k => by
    have := rangeLoop_field_rel (volumeBody rt) k (fun s => GoMap.get s.2 k) (marketsRel rt)
      (volumeBody_markets rt k) _ hn ([], []) st hst
    rw [GoMap.get_entries] at this
    exact this
  refine ⟨st.1, st.2, by simp only [ApiPublic24hVolume, hst], ?_, ?_, ?_, ?_⟩
  · intro k
    cases hg : GoMap.get fields k with
    | none => simp [(ht k).1 hg]
    | some v =>
      have hr := (ht k).2 v hg
      rcases h k v hg with hv | ⟨sub, rfl, -⟩
      · obtain ⟨s, x, rfl, -, hx⟩ := numericString_isSome rt v hv
        simp only [totalsRel] at hr
        simp [hr, hx]
      · simp only [totalsRel] at hr
        simp [hr]
  · intro k s hg
    have hr := (ht k).2 _ hg
    rcases h k _ hg with hv | ⟨sub, hsub, -⟩
    · obtain ⟨s', x, he, hp, hx⟩ := numericString_isSome rt _ hv
      cases he
      simp only [totalsRel] at hr
      exact ⟨x, hp, hr.trans hx⟩
    · cases hsub
  · intro k
    cases hg : GoMap.get fields k with
    | none => simp [(hm k).1 hg]
    | some v =>
      have hr := (hm k).2 v hg
      rcases h k v hg with hv | ⟨sub, rfl, -⟩
      · obtain ⟨s, x, rfl, -, hx⟩ := numericString_isSome rt v hv
        simp only [marketsRel] at hr
        simp [hr]
      · simp only [marketsRel] at hr
        obtain ⟨outsub, ho, -⟩ := hr
        simp [ho]
  · intro k sub hg
    have hr := (hm k).2 _ hg
    simp only [marketsRel] at hr
    obtain ⟨outsub, ho, hloop⟩ := hr
    rcases h k _ hg with hv | ⟨sub', hsub', hall⟩
    · simp [numericString] at hv
    · cases hsub'
      obtain ⟨o, ho', hget⟩ := volumeSubLoop rt (GoMap.entries sub)
        (GoMap.entries_nodupKeys sub) []
        (fun k' v' hm' => hall k' v' ((mem_entries_iff sub k' v').mp hm'))
      rw [hloop] at ho'
      cases ho'
      refine ⟨outsub, ho, fun sk => ?_⟩
      rw [hget sk, GoMap.get_entries]
      cases GoMap.get sub sk <;> rfl

/-- The instance of C10 at the sample response. -/
theorem volume_split_by_type_witness :
    (∀ k v, GoMap.get sampleVolume k = some v → volumeValue sampleRuntime v)
    ∧ ∃ totals out,
      ApiPublic24hVolume sampleRuntime (Except.ok (JSON.obj sampleVolume))
        = Outcome.returns (some totals, some out, none)
      ∧ (∀ k, (GoMap.get totals k).isSome = true
          ↔ ∃ s, GoMap.get sampleVolume k = some (JSON.str s))
      ∧ (∀ k s, GoMap.get sampleVolume k = some (JSON.str s) →
          ∃ x, sampleRuntime.ParseFloat s = Except.ok x ∧ GoMap.get totals k = some x)
      ∧ (∀ k, (GoMap.get out k).isSome = true
          ↔ ∃ sub, GoMap.get sampleVolume k = some (JSON.obj sub))
      ∧ (∀ k sub, GoMap.get sampleVolume k = some (JSON.obj sub) →
          ∃ outsub, GoMap.get out k = some outsub
            ∧ ∀ sk, GoMap.get outsub sk = (GoMap.get sub sk).bind (numericString sampleRuntime)) :=
  have hw : ∀ k v, GoMap.get sampleVolume k = some v → volumeValue sampleRuntime v := by
    intro k v hg
    simp only [sampleVolume, GoMap.get] at hg
    split_ifs at hg
    · cases hg
      exact Or.inl (by decide)
    · cases hg
      refine Or.inr ⟨_, rfl, fun sk sv hs => ?_⟩
      simp only [GoMap.get] at hs
      split_ifs at hs <;> cases hs <;> decide
  ⟨hw, volume_split_by_type sampleRuntime sampleVolume hw⟩

/-! ## The 24-hour volume at the documented payload -/

theorem volumeLoop_gets {F : Type} (rt : Runtime F) (fields : GoMap (JSON F))
    (st : GoMap F × GoMap (GoMap F))
    (hst : rangeLoop (volumeBody rt) (GoMap.entries fields) ([], []) = Flow.next st)
    (k : String) :
    ((GoMap.get fields k = none → GoMap.get st.1 k = none)
      ∧ (∀ v, GoMap.get fields k = some v → totalsRel rt v none (GoMap.get st.1 k)))
    ∧ ((GoMap.get fields k = none → GoMap.get st.2 k = none)
      ∧ (∀ v, GoMap.get fields k = some v → marketsRel rt v none (GoMap.get st.2 k))) := by
  have hn := GoMap.entries_nodupKeys fields
  have h1 := rangeLoop_field_rel (volumeBody rt) k (fun s => GoMap.get s.1 k) (totalsRel rt)
    (volumeBody_totals rt k) _ hn ([], []) st hst
  have h2 := rangeLoop_field_rel (volumeBody rt) k (fun s => GoMap.get s.2 k) (marketsRel rt)
    (volumeBody_markets rt k) _ hn ([], []) st hst
  rw [GoMap.get_entries] at h1 h2
  exact ⟨h1, h2⟩

theorem get_pair {α : Type} (a b k : String) (x y : α) :
    GoMap.get [(a, x), (b, y)] k = if a = k then some x else if b = k then some y else none :=
  rfl

theorem get_single {α : Type} (a k : String) (x : α) :
    GoMap.get [(a, x)] k = if a = k then some x else none :=
  rfl

/-- C11 (as stated, refuted): for the payload
`{"totalBTC":"10.0","BTC_LTC":{"BTC":"1.0","LTC":"2.0"}}` the totals hold their one entry
under the key `totalBTC`, as received, and nothing under `BTC`. -/
theorem mixed_payload_total_keeps_its_key :
    ApiPublic24hVolume decimalRuntime (Except.ok (JSON.obj (mixedPayload Decimal)))
      = Outcome.returns
          (some [("totalBTC", { mantissa := 10, places := 0 })],
            some [("BTC_LTC", [("BTC", { mantissa := 1, places := 0 }),
              ("LTC", { mantissa := 2, places := 0 })])],
            none)
    ∧ GoMap.get [("totalBTC", ({ mantissa := 10, places := 0 } : Decimal))] "BTC" = none :=
  ⟨rfl, rfl⟩

/-- C11 (amended): for the payload `{"totalBTC":"10.0","BTC_LTC":{"BTC":"1.0","LTC":"2.0"}}`,
in whatever order its members are visited, the normalisation yields the totals
`{totalBTC: 10.0}`, one entry under the key as received, and the volumes per market
`{BTC_LTC: {BTC: 1.0, LTC: 2.0}}`. -/
theorem mixed_payload_split {F : Type} (rt : Runtime F) (ten one two : F)
    (fields sub : GoMap (JSON F))
    (h10 : rt.ParseFloat "10.0" = Except.ok ten) (h1 : rt.ParseFloat "1.0" = Except.ok one)
    (h2 : rt.ParseFloat "2.0" = Except.ok two)
    (hf : ∀ k, GoMap.get fields k
      = GoMap.get [("totalBTC", JSON.str "10.0"), ("BTC_LTC", JSON.obj sub)] k)
    (hs : ∀ k, GoMap.get sub k
      = GoMap.get [("BTC", JSON.str "1.0"), ("LTC", JSON.str "2.0")] k) :
    ∃ totals out outsub,
      ApiPublic24hVolume rt (Except.ok (JSON.obj fields))
        = Outcome.returns (some totals, some out, none)
      ∧ (∀ k, GoMap.get totals k = GoMap.get [("totalBTC", ten)] k)
      ∧ (∀ k, GoMap.get out k = GoMap.get [("BTC_LTC", outsub)] k)
      ∧ (∀ k, GoMap.get outsub k = GoMap.get [("BTC", one), ("LTC", two)] k) := by
  have n10 : numericString rt (JSON.str "10.0") = some ten := by simp [numericString, h10]
  have n1 : numericString rt (JSON.str "1.0") = some one := by simp [numericString, h1]
  have n2 : numericString rt (JSON.str "2.0") = some two := by simp [numericString, h2]
  have hsub : ∀ sk sv, GoMap.get sub sk = some sv → (numericString rt sv).isSome = true := by
    intro sk sv hg
    rw [hs, get_pair] at hg
    split_ifs at hg <;> cases hg
    · simp [n1]
    · simp [n2]
  have hval : ∀ k v, GoMap.get fields k = some v → volumeValue rt v := by
    intro k v hg
    rw [hf, get_pair] at hg
    split_ifs at hg <;> cases hg
    · exact Or.inl (by simp [n10])
    · exact Or.inr ⟨sub, rfl, hsub⟩
  obtain ⟨st, hst⟩ := rangeLoop_next_of_forall (volumeBody rt) (GoMap.entries fields) ([], [])
    (fun k v s hm => volumeBody_next_of_volumeValue rt k v s
      (hval k v ((mem_entries_iff fields k v).mp hm)))
  have hm := ((volumeLoop_gets rt fields st hst "BTC_LTC").2.2 (JSON.obj sub)
    (by rw [hf, get_pair]; simp))
  simp only [marketsRel] at hm
  obtain ⟨outsub, ho, hloop⟩ := hm
  obtain ⟨o, ho', hget⟩ := volumeSubLoop rt (GoMap.entries sub) (GoMap.entries_nodupKeys sub) []
    (fun k' v' hm' => hsub k' v' ((mem_entries_iff sub k' v').mp hm'))
  rw [hloop] at ho'
  cases ho'
  refine ⟨st.1, st.2, outsub, by simp only [ApiPublic24hVolume, hst], ?_, ?_, ?_⟩
  · intro k
    obtain ⟨⟨t1, t2⟩, -⟩ := volumeLoop_gets rt fields st hst k
    rw [hf, get_pair] at t1 t2
    rw [get_single]
    by_cases e1 : "totalBTC" = k
    · have := t2 _ (by rw [if_pos e1])
      simp only [totalsRel] at this
      rw [this, n10, if_pos e1]
    · rw [if_neg e1] at t1 t2
      rw [if_neg e1]
      by_cases e2 : "BTC_LTC" = k
      · have := t2 _ (by rw [if_pos e2])
        simpa only [totalsRel] using this
      · exact t1 (by rw [if_neg e2])
  · intro k
    obtain ⟨-, ⟨m1, m2⟩⟩ := volumeLoop_gets rt fields st hst k
    rw [hf, get_pair] at m1 m2
    rw [get_single]
    by_cases e2 : "BTC_LTC" = k
    · rw [if_pos e2, ← e2]
      exact ho
    · rw [if_neg e2]
      by_cases e1 : "totalBTC" = k
      · have := m2 _ (by rw [if_pos e1])
        simpa only [marketsRel] using this
      · rw [if_neg e1, if_neg e2] at m1
        exact m1 rfl
  · intro k
    rw [hget k, GoMap.get_entries, hs, get_pair, get_pair]
    split_ifs
    · exact n1
    · exact n2
    · rfl

/-- The instance of the amended C11 at the decimal runtime and the payload as written. -/
theorem mixed_payload_split_witness :
    decimalRuntime.ParseFloat "10.0" = Except.ok { mantissa := 10, places := 0 }
    ∧ ∃ totals out outsub,
      ApiPublic24hVolume decimalRuntime (Except.ok (JSON.obj (mixedPayload Decimal)))
        = Outcome.returns (some totals, some out, none)
      ∧ (∀ k, GoMap.get totals k
          = GoMap.get [("totalBTC", ({ mantissa := 10, places := 0 } : Decimal))] k)
      ∧ (∀ k, GoMap.get out k = GoMap.get [("BTC_LTC", outsub)] k)
      ∧ (∀ k, GoMap.get outsub k
          = GoMap.get [("BTC", ({ mantissa := 1, places := 0 } : Decimal)),
              ("LTC", { mantissa := 2, places := 0 })] k) :=
  ⟨rfl, mixed_payload_split decimalRuntime _ _ _ (mixedPayload Decimal)
    [("BTC", JSON.str "1.0"), ("LTC", JSON.str "2.0")] rfl rfl rfl (fun _ => rfl)
    (fun _ => rfl)⟩

/-! ## Price ladders -/

theorem ladderBody_tuple {F : Type} (rt : Runtime F) (t : String × F) (price : F)
    (out : List (F × F)) (h : rt.ParseFloat t.1 = Except.ok price) :
    ladderBody rt (tuple t) out = Flow.next (out ++ [(price, t.2)]) := by
  simp only [ladderBody, tuple, h]

/-- The loop over well-formed tuples followed by anything goes on, past the tuples, with
their entries appended in order. -/
theorem ladderLoop_wellFormed {F : Type} (rt : Runtime F) (good : List (String × F))
    (h : ∀ t ∈ good, ∃ x, rt.ParseFloat t.1 = Except.ok x) (suffix : List (JSON F))
    (out : List (F × F)) :
    ∃ ladder, List.Forall₂ (decodes rt) good ladder
      ∧ sliceLoop (ladderBody rt) (good.map tuple ++ suffix) out
          = sliceLoop (ladderBody rt) suffix (out ++ ladder) := by
  induction good generalizing out with
  | nil => exact ⟨[], List.Forall₂.nil, by simp⟩
  | cons t good ih =>
    obtain ⟨x, hx⟩ := h t (List.mem_cons_self _ _)
    obtain ⟨ladder, hl, hs⟩ := ih (fun t' ht' => h t' (List.mem_cons_of_mem _ ht'))
      (out ++ [(x, t.2)])
    refine ⟨(x, t.2) :: ladder, List.Forall₂.cons ⟨hx, rfl⟩ hl, ?_⟩
    have e : sliceLoop (ladderBody rt) ((t :: good).map tuple ++ suffix) out
        = sliceLoop (ladderBody rt) (good.map tuple ++ suffix) (out ++ [(x, t.2)]) := by
      show sliceLoop _ (tuple t :: (good.map tuple ++ suffix)) out = _
      rw [sliceLoop, ladderBody_tuple rt t x out hx]
    rw [e, hs, List.append_assoc]
    rfl

/-- C12: a list of two-element tuples, each a well-formed numeric string and a number,
decodes to a ladder of the same length in the same order, whose entries are the value of
the price string and the quantity; the empty list decodes to the empty ladder. -/
theorem ladder_tuple_decode {F : Type} (rt : Runtime F) (tuples : List (String × F))
    (h : ∀ t ∈ tuples, ∃ x, rt.ParseFloat t.1 = Except.ok x) :
    (∃ ladder, interfaceTo2FloatArray rt (JSON.arr (tuples.map tuple))
        = Outcome.returns (ladder, none)
      ∧ ladder.length = tuples.length
      ∧ List.Forall₂ (decodes rt) tuples ladder)
    ∧ interfaceTo2FloatArray rt (JSON.arr []) = Outcome.returns ([], none) := by
  refine ⟨?_, rfl⟩
  obtain ⟨ladder, hl, hs⟩ := ladderLoop_wellFormed rt tuples h [] []
  refine ⟨ladder, ?_, hl.length_eq.symm, hl⟩
  rw [List.append_nil] at hs
  simp only [interfaceTo2FloatArray, hs, sliceLoop, List.nil_append]

/-- The instance of C12 at the tuple `["0.00007600", 1164]`: the price is 0.00007600, the
quantity 1164. -/
theorem ladder_tuple_decode_witness :
    (∀ t ∈ [("0.00007600", ({ mantissa := 1164, places := 0 } : Decimal))],
        ∃ x, decimalRuntime.ParseFloat t.1 = Except.ok x)
    ∧ interfaceTo2FloatArray decimalRuntime
        (JSON.arr [JSON.arr [JSON.str "0.00007600", JSON.num { mantissa := 1164, places := 0 }]])
        = Outcome.returns
            ([({ mantissa := 76, places := 6 }, { mantissa := 1164, places := 0 })], none)
    ∧ ((∃ ladder, interfaceTo2FloatArray decimalRuntime (JSON.arr
          ([("0.00007600", ({ mantissa := 1164, places := 0 } : Decimal))].map tuple))
          = Outcome.returns (ladder, none)
        ∧ ladder.length = [("0.00007600", ({ mantissa := 1164, places := 0 } : Decimal))].length
        ∧ List.Forall₂ (decodes decimalRuntime)
            [("0.00007600", ({ mantissa := 1164, places := 0 } : Decimal))] ladder)
      ∧ interfaceTo2FloatArray decimalRuntime (JSON.arr []) = Outcome.returns ([], none)) :=
  have h : ∀ t ∈ [("0.00007600", ({ mantissa := 1164, places := 0 } : Decimal))],
      ∃ x, decimalRuntime.ParseFloat t.1 = Except.ok x := by
    intro t ht
    simp only [List.mem_singleton] at ht
    subst ht
    exact ⟨_, rfl⟩
  ⟨h, rfl, ladder_tuple_decode decimalRuntime _ h⟩

/-- C20 (as stated, refuted): the ladder `[["1", 1164], ["bad", 1164]]` fails with the
parse error and the one entry decoded before the bad tuple, not with an empty ladder. -/
theorem failed_ladder_keeps_decoded_entries :
    interfaceTo2FloatArray decimalRuntime
        (JSON.arr [JSON.arr [JSON.str "1", JSON.num { mantissa := 1164, places := 0 }],
          JSON.arr [JSON.str "bad", JSON.num { mantissa := 1164, places := 0 }]])
      = Outcome.returns
          ([({ mantissa := 1, places := 0 }, { mantissa := 1164, places := 0 })],
            some "strconv.ParseFloat: parsing \"bad\": invalid syntax") :=
  rfl

/-- C20 (amended): when the price string of a tuple is not a well-formed decimal and the
tuples before it are well formed, `interfaceTo2FloatArray` returns the parse error together
with the ladder of the entries decoded before the bad tuple, which is empty when the bad
tuple is the first. -/
theorem failed_ladder_returns_decoded {F : Type} (rt : Runtime F) (good : List (String × F))
    (s : String) (err : Error) (tail rest : List (JSON F))
    (h : ∀ t ∈ good, ∃ x, rt.ParseFloat t.1 = Except.ok x)
    (hs : rt.ParseFloat s = Except.error err) :
    (∃ ladder, interfaceTo2FloatArray rt
          (JSON.arr (good.map tuple ++ JSON.arr (JSON.str s :: tail) :: rest))
        = Outcome.returns (ladder, some err)
      ∧ ladder.length = good.length
      ∧ List.Forall₂ (decodes rt) good ladder)
    ∧ interfaceTo2FloatArray rt (JSON.arr (JSON.arr (JSON.str s :: tail) :: rest))
        = Outcome.returns ([], some err) := by
  constructor
  · obtain ⟨ladder, hl, hloop⟩ := ladderLoop_wellFormed rt good h
      (JSON.arr (JSON.str s :: tail) :: rest) []
    refine ⟨ladder, ?_, hl.length_eq.symm, hl⟩
    simp only [interfaceTo2FloatArray, hloop, sliceLoop, ladderBody, hs, List.nil_append]
  · simp only [interfaceTo2FloatArray, sliceLoop, ladderBody, hs]

/-- The instance of the amended C20 at `[["1", 1164], ["bad", 1164]]`. -/
theorem failed_ladder_returns_decoded_witness :
    decimalRuntime.ParseFloat "bad"
      = Except.error "strconv.ParseFloat: parsing \"bad\": invalid syntax"
    ∧ ∃ ladder, interfaceTo2FloatArray decimalRuntime
          (JSON.arr ([("1", ({ mantissa := 1164, places := 0 } : Decimal))].map tuple
            ++ JSON.arr (JSON.str "bad" :: [JSON.num { mantissa := 1164, places := 0 }]) :: []))
        = Outcome.returns (ladder, some "strconv.ParseFloat: parsing \"bad\": invalid syntax")
      ∧ ladder.length = [("1", ({ mantissa := 1164, places := 0 } : Decimal))].length
      ∧ List.Forall₂ (decodes decimalRuntime)
          [("1", ({ mantissa := 1164, places := 0 } : Decimal))] ladder :=
  ⟨rfl, (failed_ladder_returns_decoded decimalRuntime
    [("1", ({ mantissa := 1164, places := 0 } : Decimal))] "bad" _ _ []
    (by
      intro t ht
      simp only [List.mem_singleton] at ht
      subst ht
      exact ⟨_, rfl⟩)
    rfl).1⟩

/-! ## Representations and shapes -/

/-- C13 (as stated, refuted): the price `0.00007600` decodes from the numeric string and
panics as a number, the quantity `1164` decodes from the number and panics as the numeric
string, `isFrozen` decodes from the string `0` and panics as the number 0; the documented
sample as a whole panics. -/
theorem number_and_string_not_interchangeable :
    interfaceTo2FloatArray decimalRuntime
        (JSON.arr [JSON.arr [JSON.str "0.00007600", JSON.num { mantissa := 1164, places := 0 }]])
      = Outcome.returns
          ([({ mantissa := 76, places := 6 }, { mantissa := 1164, places := 0 })], none)
    ∧ interfaceTo2FloatArray decimalRuntime
        (JSON.arr [JSON.arr [JSON.num { mantissa := 76, places := 6 },
          JSON.num { mantissa := 1164, places := 0 }]])
      = Outcome.panics Panic.typeAssertion
    ∧ interfaceTo2FloatArray decimalRuntime
        (JSON.arr [JSON.arr [JSON.str "0.00007600", JSON.str "1164"]])
      = Outcome.panics Panic.typeAssertion
    ∧ getOrderBookFromInterface decimalRuntime (JSON.obj [("isFrozen", JSON.str "0")])
      = Outcome.returns (OrderBookEntry.empty decimalRuntime, none)
    ∧ getOrderBookFromInterface decimalRuntime
        (JSON.obj [("isFrozen", JSON.num { mantissa := 0, places := 0 })])
      = Outcome.panics Panic.typeAssertion
    ∧ ApiPublicOrderBook decimalRuntime "BTC_NXT" (Except.ok documentedSample)
      = Outcome.panics Panic.typeAssertion :=
  ⟨rfl, rfl, rfl, rfl, rfl, rfl⟩

/-- C13 (amended): the order-book record reads each field in one representation: the
price of a tuple from a numeric string, its quantity from a number, and `isFrozen` from a
numeric string; a quantity given as a string is not coerced, the decode panics. -/
theorem order_book_fields_one_representation {F : Type} (rt : Runtime F) (s frozen : String)
    (price quantity : F) (n : Int) (quantityText : String)
    (hs : rt.ParseFloat s = Except.ok price) (hf : rt.Atoi frozen = Except.ok n) :
    interfaceTo2FloatArray rt (JSON.arr [JSON.arr [JSON.str s, JSON.num quantity]])
      = Outcome.returns ([(price, quantity)], none)
    ∧ interfaceTo2FloatArray rt (JSON.arr [JSON.arr [JSON.str s, JSON.str quantityText]])
      = Outcome.panics Panic.typeAssertion
    ∧ getOrderBookFromInterface rt (JSON.obj [("isFrozen", JSON.str frozen)])
      = Outcome.returns ({ OrderBookEntry.empty rt with IsFrozen := n }, none) := by
  refine ⟨?_, ?_, ?_⟩
  · simp only [interfaceTo2FloatArray, sliceLoop, ladderBody, hs, List.nil_append]
  · simp only [interfaceTo2FloatArray, sliceLoop, ladderBody, hs]
  · simp [getOrderBookFromInterface, GoMap.entries, rangeLoop, orderBookBody, hf]

/-- The instance of the amended C13 at the price `0.00007600`, the quantity 1164 and
`isFrozen` `0`. -/
theorem order_book_fields_one_representation_witness :
    decimalRuntime.ParseFloat "0.00007600" = Except.ok { mantissa := 76, places := 6 }
    ∧ decimalRuntime.Atoi "0" = Except.ok 0
    ∧ interfaceTo2FloatArray decimalRuntime
        (JSON.arr [JSON.arr [JSON.str "0.00007600", JSON.num { mantissa := 1164, places := 0 }]])
      = Outcome.returns
          ([({ mantissa := 76, places := 6 }, { mantissa := 1164, places := 0 })], none)
    ∧ interfaceTo2FloatArray decimalRuntime
        (JSON.arr [JSON.arr [JSON.str "0.00007600", JSON.str "1164"]])
      = Outcome.panics Panic.typeAssertion
    ∧ getOrderBookFromInterface decimalRuntime (JSON.obj [("isFrozen", JSON.str "0")])
      = Outcome.returns ({ OrderBookEntry.empty decimalRuntime with IsFrozen := 0 }, none) :=
  ⟨rfl, rfl, order_book_fields_one_representation decimalRuntime "0.00007600" "0"
    { mantissa := 76, places := 6 } { mantissa := 1164, places := 0 } 0 "1164" rfl rfl⟩

/-- C14 (as stated, refuted): a top-level value that is not an object, a ladder that is
not an array, an empty tuple and a 24-hour-volume value that is a number make the
operations panic; no error result is returned. -/
theorem unexpected_shapes_do_panic :
    getOrderBookFromInterface decimalRuntime (JSON.arr []) = Outcome.panics Panic.typeAssertion
    ∧ interfaceTo2FloatArray decimalRuntime (JSON.str "asks")
        = Outcome.panics Panic.typeAssertion
    ∧ interfaceTo2FloatArray decimalRuntime (JSON.arr [JSON.arr []])
        = Outcome.panics Panic.indexOutOfRange
    ∧ ApiPublic24hVolume decimalRuntime
        (Except.ok (JSON.obj [("totalBTC", JSON.num { mantissa := 10, places := 0 })]))
        = Outcome.panics Panic.typeAssertion :=
  ⟨rfl, rfl, rfl, rfl⟩

theorem getOrderBook_not_obj {F : Type} (rt : Runtime F) (top : JSON F)
    (h : ∀ f, top ≠ JSON.obj f) :
    getOrderBookFromInterface rt top = Outcome.panics Panic.typeAssertion := by
  cases top with
  | obj f => exact absurd rfl (h f)
  | _ => rfl

theorem interfaceTo2FloatArray_not_arr {F : Type} (rt : Runtime F) (ladder : JSON F)
    (h : ∀ l, ladder ≠ JSON.arr l) :
    interfaceTo2FloatArray rt ladder = Outcome.panics Panic.typeAssertion := by
  cases ladder with
  | arr l => exact absurd rfl (h l)
  | _ => rfl

theorem ladderBody_bad_price {F : Type} (rt : Runtime F) (price : JSON F)
    (tail : List (JSON F)) (out : List (F × F)) (h : ∀ s, price ≠ JSON.str s) :
    ladderBody rt (JSON.arr (price :: tail)) out
      = Flow.leave (Outcome.panics Panic.typeAssertion) := by
  cases price with
  | str s => exact absurd rfl (h s)
  | _ => rfl

theorem ladderBody_bad_quantity {F : Type} (rt : Runtime F) (s : String) (p : F)
    (quantity : JSON F) (tail : List (JSON F)) (out : List (F × F))
    (hs : rt.ParseFloat s = Except.ok p) (h : ∀ q, quantity ≠ JSON.num q) :
    ladderBody rt (JSON.arr (JSON.str s :: quantity :: tail)) out
      = Flow.leave (Outcome.panics Panic.typeAssertion) := by
  cases quantity with
  | num q => exact absurd rfl (h q)
  | _ => simp only [ladderBody, hs]

theorem ladderBody_not_arr {F : Type} (rt : Runtime F) (t : JSON F) (out : List (F × F))
    (h : ∀ l, t ≠ JSON.arr l) :
    ladderBody rt t out = Flow.leave (Outcome.panics Panic.typeAssertion) := by
  cases t with
  | arr l => exact absurd rfl (h l)
  | _ => rfl

/-- The ladder whose first tuple that is not well formed makes the body leave with `r`
ends with `r`. -/
theorem interfaceTo2FloatArray_first_bad {F : Type} (rt : Runtime F)
    (good : List (String × F)) (bad : JSON F) (rest : List (JSON F))
    (r : Outcome (List (F × F) × Option Error))
    (h : ∀ t ∈ good, ∃ x, rt.ParseFloat t.1 = Except.ok x)
    (hbad : ∀ out, ladderBody rt bad out = Flow.leave r) :
    interfaceTo2FloatArray rt (JSON.arr (good.map tuple ++ bad :: rest)) = r := by
  obtain ⟨ladder, -, hloop⟩ := ladderLoop_wellFormed rt good h (bad :: rest) []
  simp only [interfaceTo2FloatArray, hloop, sliceLoop, hbad]

/-- C14 (amended): unexpected shapes are run-time panics, not decode errors. A top-level
value that is not an object, a ladder or a tuple that is not an array, a tuple with fewer
than two elements, a price that is not a string, a quantity that is not a number, an
`isFrozen` that is not a string and a 24-hour-volume value that is a number or `null` each
make the operation panic on a type assertion, an index or a nil type, where the code meets
them. -/
theorem unexpected_shapes_panic {F : Type} (rt : Runtime F) (pair key s : String)
    (top ladder bad price quantity frozen : JSON F) (p x : F) (good : List (String × F))
    (tail rest : List (JSON F)) (fields : GoMap (JSON F))
    (htop : ∀ f, top ≠ JSON.obj f) (hladder : ∀ l, ladder ≠ JSON.arr l)
    (hbad : ∀ l, bad ≠ JSON.arr l)
    (hgood : ∀ t ∈ good, ∃ y, rt.ParseFloat t.1 = Except.ok y)
    (hprice : ∀ z, price ≠ JSON.str z) (hs : rt.ParseFloat s = Except.ok p)
    (hquantity : ∀ q, quantity ≠ JSON.num q) (hfrozen : ∀ z, frozen ≠ JSON.str z) :
    getOrderBookFromInterface rt top = Outcome.panics Panic.typeAssertion
    ∧ ApiPublicOrderBook rt pair (Except.ok top) = Outcome.panics Panic.typeAssertion
    ∧ ApiPublic24hVolume rt (Except.ok top) = Outcome.panics Panic.typeAssertion
    ∧ interfaceTo2FloatArray rt ladder = Outcome.panics Panic.typeAssertion
    ∧ getOrderBookFromInterface rt (JSON.obj (("asks", ladder) :: fields))
        = Outcome.panics Panic.typeAssertion
    ∧ interfaceTo2FloatArray rt (JSON.arr (good.map tuple ++ bad :: rest))
        = Outcome.panics Panic.typeAssertion
    ∧ interfaceTo2FloatArray rt (JSON.arr (good.map tuple ++ JSON.arr [] :: rest))
        = Outcome.panics Panic.indexOutOfRange
    ∧ interfaceTo2FloatArray rt (JSON.arr (good.map tuple ++ JSON.arr [JSON.str s] :: rest))
        = Outcome.panics Panic.indexOutOfRange
    ∧ interfaceTo2FloatArray rt (JSON.arr (good.map tuple ++ JSON.arr (price :: tail) :: rest))
        = Outcome.panics Panic.typeAssertion
    ∧ interfaceTo2FloatArray rt
        (JSON.arr (good.map tuple ++ JSON.arr (JSON.str s :: quantity :: tail) :: rest))
        = Outcome.panics Panic.typeAssertion
    ∧ getOrderBookFromInterface rt (JSON.obj (("isFrozen", frozen) :: fields))
        = Outcome.panics Panic.typeAssertion
    ∧ ApiPublic24hVolume rt (Except.ok (JSON.obj ((key, JSON.num x) :: fields)))
        = Outcome.panics Panic.typeAssertion
    ∧ ApiPublic24hVolume rt (Except.ok (JSON.obj ((key, JSON.null) :: fields)))
        = Outcome.panics Panic.nilDereference := by
  have h1 := getOrderBook_not_obj rt top htop
  refine ⟨h1, ?_, ?_, interfaceTo2FloatArray_not_arr rt ladder hladder, ?_,
    interfaceTo2FloatArray_first_bad rt good _ rest _ hgood
      (fun out => ladderBody_not_arr rt bad out hbad),
    interfaceTo2FloatArray_first_bad rt good _ rest _ hgood (fun _ => rfl),
    interfaceTo2FloatArray_first_bad rt good _ rest _ hgood
      (fun out => by simp only [ladderBody, hs]),
    interfaceTo2FloatArray_first_bad rt good _ rest _ hgood
      (fun out => ladderBody_bad_price rt price tail out hprice),
    interfaceTo2FloatArray_first_bad rt good _ rest _ hgood
      (fun out => ladderBody_bad_quantity rt s p quantity tail out hs hquantity),
    ?_, ?_, ?_⟩
  · by_cases hp : pair ≠ "all"
    · simp only [ApiPublicOrderBook, if_pos hp, h1]
    · cases top with
      | obj f => exact absurd rfl (htop f)
      | _ => simp only [ApiPublicOrderBook, if_neg hp]
  · cases top with
    | obj f => exact absurd rfl (htop f)
    | _ => rfl
  · simp only [getOrderBookFromInterface, GoMap.entries, rangeLoop, orderBookBody, if_true,
      interfaceTo2FloatArray_not_arr rt ladder hladder]
  · cases frozen with
    | str z => exact absurd rfl (hfrozen z)
    | _ => simp [getOrderBookFromInterface, GoMap.entries, rangeLoop, orderBookBody]
  · simp [ApiPublic24hVolume, GoMap.entries, rangeLoop, volumeBody, typeName]
  · simp [ApiPublic24hVolume, GoMap.entries, rangeLoop, volumeBody, typeName]

/-- The instance of the amended C14 at an array handed over as the record, a string as a
ladder, a number as a tuple, as a price and as `isFrozen`, and a string as a quantity. -/
theorem unexpected_shapes_panic_witness :
    decimalRuntime.ParseFloat "1" = Except.ok { mantissa := 1, places := 0 }
    ∧ getOrderBookFromInterface decimalRuntime (JSON.arr []) = Outcome.panics Panic.typeAssertion
    ∧ interfaceTo2FloatArray decimalRuntime (JSON.str "asks")
        = Outcome.panics Panic.typeAssertion
    ∧ interfaceTo2FloatArray decimalRuntime
        (JSON.arr (([] : List (String × Decimal)).map tuple
          ++ JSON.arr (JSON.str "1" :: JSON.str "1164" :: []) :: []))
        = Outcome.panics Panic.typeAssertion
    ∧ getOrderBookFromInterface decimalRuntime
        (JSON.obj (("isFrozen", JSON.num { mantissa := 0, places := 0 }) :: []))
        = Outcome.panics Panic.typeAssertion :=
  have h := unexpected_shapes_panic decimalRuntime "BTC_NXT" "totalBTC" "1"
    (JSON.arr []) (JSON.str "asks") (JSON.num { mantissa := 1, places := 0 })
    (JSON.num { mantissa := 76, places := 6 }) (JSON.str "1164")
    (JSON.num { mantissa := 0, places := 0 }) { mantissa := 1, places := 0 }
    { mantissa := 10, places := 0 } [] [] [] []
    (fun _ e => by cases e) (fun _ e => by cases e) (fun _ e => by cases e)
    (fun _ ht => by cases ht) (fun _ e => by cases e) rfl (fun _ e => by cases e)
    (fun _ e => by cases e)
  ⟨rfl, h.1, h.2.2.2.1, h.2.2.2.2.2.2.2.2.2.1, h.2.2.2.2.2.2.2.2.2.2.1⟩

/-! ## Failed decodes -/

/-- A loop whose body, at every binding, goes on or leaves with a result in `P` runs to its
end or leaves with a result in `P`. -/
theorem rangeLoop_cases {β σ ρ : Type} (body : String → β → σ → Flow σ ρ) (P : ρ → Prop)
    (l : List (String × β)) (s : σ)
    (h : ∀ k v s, (k, v) ∈ l →
      (∃ s', body k v s = Flow.next s') ∨ (∃ r, body k v s = Flow.leave r ∧ P r)) :
    (∃ e, rangeLoop body l s = Flow.next e) ∨ (∃ r, rangeLoop body l s = Flow.leave r ∧ P r) := by
  induction l generalizing s with
  | nil => exact Or.inl ⟨s, rfl⟩
  | cons x l ih =>
    obtain ⟨k, v⟩ := x
    rcases h k v s (List.mem_cons_self _ _) with ⟨s', hs'⟩ | ⟨r, hr, hP⟩
    · simp only [rangeLoop, hs']
      exact ih s' (fun k' v' s'' hm => h k' v' s'' (List.mem_cons_of_mem _ hm))
    · exact Or.inr ⟨r, by simp only [rangeLoop, hr], hP⟩

/-- Such a loop leaves with a result in `P` when the body never goes on at one of the
bindings. -/
theorem rangeLoop_leave_of_mem {β σ ρ : Type} (body : String → β → σ → Flow σ ρ)
    (P : ρ → Prop) (l : List (String × β)) (s : σ)
    (h : ∀ k v s, (k, v) ∈ l →
      (∃ s', body k v s = Flow.next s') ∨ (∃ r, body k v s = Flow.leave r ∧ P r))
    (k : String) (v : β) (hm : (k, v) ∈ l) (hfail : ∀ s s', body k v s ≠ Flow.next s') :
    ∃ r, rangeLoop body l s = Flow.leave r ∧ P r := by
  induction l generalizing s with
  | nil => cases hm
  | cons x l ih =>
    obtain ⟨k0, v0⟩ := x
    rcases h k0 v0 s (List.mem_cons_self _ _) with ⟨s', hs'⟩ | ⟨r, hr, hP⟩
    · simp only [rangeLoop, hs']
      rcases List.mem_cons.mp hm with e | hm'
      · cases e
        exact absurd hs' (hfail s s')
      · exact ih s' (fun k' v' s'' hm'' => h k' v' s'' (List.mem_cons_of_mem _ hm'')) hm'
    · exact ⟨r, by simp only [rangeLoop, hr], hP⟩

/-- The same for a loop over a slice: it runs to its end or leaves with a result in `P`. -/
theorem sliceLoop_cases {β σ ρ : Type} (body : β → σ → Flow σ ρ) (P : ρ → Prop)
    (l : List β) (s : σ)
    (h : ∀ v s, v ∈ l → (∃ s', body v s = Flow.next s') ∨ (∃ r, body v s = Flow.leave r ∧ P r)) :
    (∃ e, sliceLoop body l s = Flow.next e) ∨ (∃ r, sliceLoop body l s = Flow.leave r ∧ P r) := by
  induction l generalizing s with
  | nil => exact Or.inl ⟨s, rfl⟩
  | cons v l ih =>
    rcases h v s (List.mem_cons_self _ _) with ⟨s', hs'⟩ | ⟨r, hr, hP⟩
    · simp only [sliceLoop, hs']
      exact ih s' (fun v' s'' hm => h v' s'' (List.mem_cons_of_mem _ hm))
    · exact Or.inr ⟨r, by simp only [sliceLoop, hr], hP⟩

/-- The same for a loop over a slice: it leaves when the body never goes on at one of the
elements. -/
theorem sliceLoop_leave_of_mem {β σ ρ : Type} (body : β → σ → Flow σ ρ) (P : ρ → Prop)
    (l : List β) (s : σ)
    (h : ∀ v s, v ∈ l → (∃ s', body v s = Flow.next s') ∨ (∃ r, body v s = Flow.leave r ∧ P r))
    (v : β) (hm : v ∈ l) (hfail : ∀ s s', body v s ≠ Flow.next s') :
    ∃ r, sliceLoop body l s = Flow.leave r ∧ P r := by
  induction l generalizing s with
  | nil => cases hm
  | cons v0 l ih =>
    rcases h v0 s (List.mem_cons_self _ _) with ⟨s', hs'⟩ | ⟨r, hr, hP⟩
    · simp only [sliceLoop, hs']
      rcases List.mem_cons.mp hm with e | hm'
      · cases e
        exact absurd hs' (hfail s s')
      · exact ih s' (fun v' s'' hm'' => h v' s'' (List.mem_cons_of_mem _ hm'')) hm'
    · exact ⟨r, by simp only [sliceLoop, hr], hP⟩

theorem ladderBody_shaped {F : Type} (rt : Runtime F) (s : String) (q : F)
    (tail : List (JSON F)) (out : List (F × F)) :
    (∃ out', ladderBody rt (JSON.arr (JSON.str s :: JSON.num q :: tail)) out = Flow.next out')
    ∨ (∃ r, ladderBody rt (JSON.arr (JSON.str s :: JSON.num q :: tail)) out = Flow.leave r
        ∧ ∃ o e, r = Outcome.returns (o, some e)) := by
  cases hp : rt.ParseFloat s with
  | ok x => exact Or.inl ⟨out ++ [(x, q)], by simp only [ladderBody, hp]⟩
  | error e =>
    exact Or.inr ⟨Outcome.returns (out, some e), by simp only [ladderBody, hp], out, e, rfl⟩

theorem ladder_shaped_cases {F : Type} (rt : Runtime F) (v : JSON F) (h : ladderShaped v) :
    (∃ o, interfaceTo2FloatArray rt v = Outcome.returns (o, none))
    ∨ (∃ o e, interfaceTo2FloatArray rt v = Outcome.returns (o, some e)) := by
  obtain ⟨items, rfl, hitems⟩ := h
  have hb : ∀ t (out : List (F × F)), t ∈ items →
      (∃ out', ladderBody rt t out = Flow.next out')
      ∨ (∃ r, ladderBody rt t out = Flow.leave r ∧ ∃ o e, r = Outcome.returns (o, some e)) := by
    intro t out ht
    obtain ⟨s, q, tail, rfl⟩ := hitems t ht
    exact ladderBody_shaped rt s q tail out
  rcases sliceLoop_cases (ladderBody rt) _ items [] hb with ⟨e, he⟩ | ⟨r, hr, o, e, rfl⟩
  · exact Or.inl ⟨e, by simp only [interfaceTo2FloatArray, he]⟩
  · exact Or.inr ⟨o, e, by simp only [interfaceTo2FloatArray, hr]⟩

theorem ladder_fails_returns_error {F : Type} (rt : Runtime F) (v : JSON F)
    (h : ladderShaped v) (hf : ladderFails rt v) :
    ∃ o e, interfaceTo2FloatArray rt v = Outcome.returns (o, some e) := by
  obtain ⟨items, rfl, hitems⟩ := h
  obtain ⟨items', e', t, ht, s, tail, err, rfl, hs⟩ := hf
  cases e'
  have hb : ∀ t (out : List (F × F)), t ∈ items →
      (∃ out', ladderBody rt t out = Flow.next out')
      ∨ (∃ r, ladderBody rt t out = Flow.leave r ∧ ∃ o e, r = Outcome.returns (o, some e)) := by
    intro t out ht
    obtain ⟨s, q, tail, rfl⟩ := hitems t ht
    exact ladderBody_shaped rt s q tail out
  obtain ⟨r, hr, o, e, rfl⟩ := sliceLoop_leave_of_mem (ladderBody rt) _ items [] hb _ ht
    (fun out out' hn => by simp [ladderBody, hs] at hn)
  exact ⟨o, e, by simp only [interfaceTo2FloatArray, hr]⟩

theorem orderBookBody_shaped {F : Type} (rt : Runtime F) (k : String) (v : JSON F)
    (st : OrderBookEntry F) (hl : (k = "asks" ∨ k = "bids") → ladderShaped v)
    (hfz : k = "isFrozen" → ∃ s, v = JSON.str s) (hsq : k = "seq" → ∃ x, v = JSON.num x) :
    (∃ st', orderBookBody rt k v st = Flow.next st')
    ∨ (∃ r, orderBookBody rt k v st = Flow.leave r
        ∧ ∃ e, r = Outcome.returns (OrderBookEntry.empty rt, some e)) := by
  unfold orderBookBody
  by_cases h1 : k = "asks"
  · rw [if_pos h1]
    rcases ladder_shaped_cases rt v (hl (Or.inl h1)) with ⟨o, ho⟩ | ⟨o, e, ho⟩
    · exact Or.inl ⟨{ st with Asks := o }, by rw [ho]⟩
    · exact Or.inr ⟨_, by rw [ho], e, rfl⟩
  · rw [if_neg h1]
    by_cases h2 : k = "bids"
    · rw [if_pos h2]
      rcases ladder_shaped_cases rt v (hl (Or.inr h2)) with ⟨o, ho⟩ | ⟨o, e, ho⟩
      · exact Or.inl ⟨{ st with Bids := o }, by rw [ho]⟩
      · exact Or.inr ⟨_, by rw [ho], e, rfl⟩
    · rw [if_neg h2]
      by_cases h3 : k = "isFrozen"
      · rw [if_pos h3]
        obtain ⟨s, rfl⟩ := hfz h3
        cases ha : rt.Atoi s with
        | ok n => exact Or.inl ⟨{ st with IsFrozen := n }, by simp only [ha]⟩
        | error e => exact Or.inr ⟨_, by simp only [ha], e, rfl⟩
      · rw [if_neg h3]
        by_cases h4 : k = "seq"
        · rw [if_pos h4]
          obtain ⟨x, rfl⟩ := hsq h4
          exact Or.inl ⟨{ st with Seq := x }, rfl⟩
        · rw [if_neg h4]
          exact Or.inl ⟨st, rfl⟩

theorem orderBookBody_never_next {F : Type} (rt : Runtime F) (k : String) (v : JSON F)
    (hl : (k = "asks" ∨ k = "bids") → ladderShaped v)
    (hf : ((k = "asks" ∨ k = "bids") ∧ ladderFails rt v)
      ∨ (k = "isFrozen" ∧ ∃ s err, v = JSON.str s ∧ rt.Atoi s = Except.error err))
    (st st' : OrderBookEntry F) : orderBookBody rt k v st ≠ Flow.next st' := by
  intro hn
  unfold orderBookBody at hn
  rcases hf with ⟨hk, hfl⟩ | ⟨hk, s, err, rfl, ha⟩
  · obtain ⟨o, e, ho⟩ := ladder_fails_returns_error rt v (hl hk) hfl
    rcases hk with hk | hk
    · rw [if_pos hk, ho] at hn
      cases hn
    · by_cases h1 : k = "asks"
      · rw [if_pos h1, ho] at hn
        cases hn
      · rw [if_neg h1, if_pos hk, ho] at hn
        cases hn
  · subst hk
    simp [ha] at hn

theorem getOrderBook_shaped_cases {F : Type} (rt : Runtime F) (r : JSON F)
    (hs : recordShaped r) :
    (∃ o, getOrderBookFromInterface rt r = Outcome.returns (o, none))
    ∨ (∃ e, getOrderBookFromInterface rt r
        = Outcome.returns (OrderBookEntry.empty rt, some e)) := by
  obtain ⟨f, rfl, hf⟩ := hs
  have hb : ∀ k v (st : OrderBookEntry F), (k, v) ∈ GoMap.entries f →
      (∃ st', orderBookBody rt k v st = Flow.next st')
      ∨ (∃ r, orderBookBody rt k v st = Flow.leave r
          ∧ ∃ e, r = Outcome.returns (OrderBookEntry.empty rt, some e)) := by
    intro k v st hm
    obtain ⟨a, b, c⟩ := hf k v ((mem_entries_iff f k v).mp hm)
    exact orderBookBody_shaped rt k v st a b c
  rcases rangeLoop_cases (orderBookBody rt) _ (GoMap.entries f) (OrderBookEntry.empty rt) hb
    with ⟨o, ho⟩ | ⟨r, hr, e, rfl⟩
  · exact Or.inl ⟨o, by simp only [getOrderBookFromInterface, ho]⟩
  · exact Or.inr ⟨e, by simp only [getOrderBookFromInterface, hr]⟩

theorem getOrderBook_fails {F : Type} (rt : Runtime F) (r : JSON F)
    (hs : recordShaped r) (hf : recordFails rt r) :
    ∃ e, getOrderBookFromInterface rt r
      = Outcome.returns (OrderBookEntry.empty rt, some e) := by
  obtain ⟨f, rfl, hshape⟩ := hs
  obtain ⟨f', e', k, v, hg, hfail⟩ := hf
  cases e'
  have hb : ∀ k v (st : OrderBookEntry F), (k, v) ∈ GoMap.entries f →
      (∃ st', orderBookBody rt k v st = Flow.next st')
      ∨ (∃ r, orderBookBody rt k v st = Flow.leave r
          ∧ ∃ e, r = Outcome.returns (OrderBookEntry.empty rt, some e)) := by
    intro k v st hm
    obtain ⟨a, b, c⟩ := hshape k v ((mem_entries_iff f k v).mp hm)
    exact orderBookBody_shaped rt k v st a b c
  obtain ⟨r, hr, e, rfl⟩ := rangeLoop_leave_of_mem (orderBookBody rt) _ (GoMap.entries f)
    (OrderBookEntry.empty rt) hb k v ((mem_entries_iff f k v).mpr hg)
    (orderBookBody_never_next rt k v (hshape k v hg).1 hfail)
  exact ⟨e, by simp only [getOrderBookFromInterface, hr]⟩

theorem allMarketsBody_shaped {F : Type} (rt : Runtime F) (k : String) (v : JSON F)
    (out : GoMap (OrderBookEntry F)) (hs : recordShaped v) :
    (∃ out', allMarketsBody rt k v out = Flow.next out')
    ∨ (∃ r, allMarketsBody rt k v out = Flow.leave r
        ∧ ∃ e, r = Outcome.returns (none, some e)) := by
  unfold allMarketsBody
  rcases getOrderBook_shaped_cases rt v hs with ⟨o, ho⟩ | ⟨e, he⟩
  · exact Or.inl ⟨GoMap.set out k o, by rw [ho]⟩
  · exact Or.inr ⟨_, by rw [he], e, rfl⟩

theorem orderBook_fails_single {F : Type} (rt : Runtime F) (pair : String) (r : JSON F)
    (hp : pair ≠ "all") (hs : recordShaped r) (hf : recordFails rt r) :
    ∃ e, ApiPublicOrderBook rt pair (Except.ok r) = Outcome.returns (none, some e) := by
  obtain ⟨e, he⟩ := getOrderBook_fails rt r hs hf
  exact ⟨e, by simp only [ApiPublicOrderBook, if_pos hp, he]⟩

theorem orderBook_fails_all {F : Type} (rt : Runtime F) (markets : GoMap (JSON F))
    (hs : ∀ k v, GoMap.get markets k = some v → recordShaped v)
    (hf : ∃ k v, GoMap.get markets k = some v ∧ recordFails rt v) :
    ∃ e, ApiPublicOrderBook rt "all" (Except.ok (JSON.obj markets))
      = Outcome.returns (none, some e) := by
  obtain ⟨k, v, hg, hfail⟩ := hf
  obtain ⟨r, hr, e, rfl⟩ := rangeLoop_leave_of_mem (allMarketsBody rt)
    (fun r => ∃ e, r = Outcome.returns (none, some e)) (GoMap.entries markets) []
    (fun k' v' out hm => allMarketsBody_shaped rt k' v' out
      (hs k' v' ((mem_entries_iff markets k' v').mp hm)))
    k v ((mem_entries_iff markets k v).mpr hg)
    (fun out out' hn => by
      obtain ⟨e, he⟩ := getOrderBook_fails rt v (hs k v hg) hfail
      simp only [allMarketsBody, he] at hn
      cases hn)
  exact ⟨e, by simp [ApiPublicOrderBook, hr]⟩

theorem volumeSubBody_shaped {F : Type} (rt : Runtime F) (sk s : String) (out : GoMap F) :
    (∃ out', volumeSubBody rt sk (JSON.str s) out = Flow.next out')
    ∨ (∃ r, volumeSubBody rt sk (JSON.str s) out = Flow.leave r
        ∧ ∃ e, r = Outcome.returns (none, none, some e)) := by
  cases hp : rt.ParseFloat s with
  | ok x => exact Or.inl ⟨GoMap.set out sk x, by simp only [volumeSubBody, hp]⟩
  | error e =>
    exact Or.inr ⟨Outcome.returns (none, none, some e), by simp only [volumeSubBody, hp], e, rfl⟩

theorem volumeBody_shaped {F : Type} (rt : Runtime F) (k : String) (v : JSON F)
    (st : GoMap F × GoMap (GoMap F))
    (hv : (∃ s, v = JSON.str s)
      ∨ ∃ sub, v = JSON.obj sub ∧ ∀ sk sv, GoMap.get sub sk = some sv → ∃ s, sv = JSON.str s) :
    (∃ st', volumeBody rt k v st = Flow.next st')
    ∨ (∃ r, volumeBody rt k v st = Flow.leave r
        ∧ ∃ e, r = Outcome.returns (none, none, some e)) := by
  rcases hv with ⟨s, rfl⟩ | ⟨sub, rfl, hsub⟩
  · cases hp : rt.ParseFloat s with
    | ok x =>
      exact Or.inl ⟨(GoMap.set st.1 k x, st.2), by simp only [volumeBody, typeName, hp, if_true]⟩
    | error e =>
      exact Or.inr ⟨Outcome.returns (none, none, some e),
        by simp only [volumeBody, typeName, hp, if_true], e, rfl⟩
  · rcases rangeLoop_cases (volumeSubBody rt)
        (fun r => ∃ e, r = Outcome.returns (none, none, some e)) (GoMap.entries sub) []
        (fun sk sv out hm => by
          obtain ⟨s, rfl⟩ := hsub sk sv ((mem_entries_iff sub sk sv).mp hm)
          exact volumeSubBody_shaped rt sk s out)
      with ⟨o, ho⟩ | ⟨r, hr, e, rfl⟩
    · exact Or.inl ⟨(st.1, GoMap.set st.2 k o), by simp [volumeBody, typeName, ho]⟩
    · exact Or.inr ⟨Outcome.returns (none, none, some e),
        by simp [volumeBody, typeName, hr], e, rfl⟩

theorem volumeBody_never_next {F : Type} (rt : Runtime F) (k : String) (v : JSON F)
    (hv : (∃ s, v = JSON.str s)
      ∨ ∃ sub, v = JSON.obj sub ∧ ∀ sk sv, GoMap.get sub sk = some sv → ∃ s, sv = JSON.str s)
    (hf : (∃ s err, v = JSON.str s ∧ rt.ParseFloat s = Except.error err)
      ∨ ∃ sub sk s err, v = JSON.obj sub ∧ GoMap.get sub sk = some (JSON.str s)
          ∧ rt.ParseFloat s = Except.error err)
    (st st' : GoMap F × GoMap (GoMap F)) : volumeBody rt k v st ≠ Flow.next st' := by
  intro hn
  rcases hf with ⟨s, err, rfl, hp⟩ | ⟨sub, sk, s, err, rfl, hg, hp⟩
  · simp [volumeBody, typeName, hp] at hn
  · rcases hv with ⟨s', e'⟩ | ⟨sub', e', hsub⟩
    · cases e'
    · cases e'
      obtain ⟨r, hr, e, rfl⟩ := rangeLoop_leave_of_mem (volumeSubBody rt)
        (fun r => ∃ e, r = Outcome.returns (none, none, some e)) (GoMap.entries sub) []
        (fun sk' sv out hm => by
          obtain ⟨s', rfl⟩ := hsub sk' sv ((mem_entries_iff sub sk' sv).mp hm)
          exact volumeSubBody_shaped rt sk' s' out)
        sk (JSON.str s) ((mem_entries_iff sub sk _).mpr hg)
        (fun out out' hn' => by simp [volumeSubBody, hp] at hn')
      simp [volumeBody, typeName, hr] at hn

theorem volume_fails {F : Type} (rt : Runtime F) (fields : GoMap (JSON F))
    (hs : volumeShaped fields) (hf : volumeFails rt fields) :
    ∃ e, ApiPublic24hVolume rt (Except.ok (JSON.obj fields))
      = Outcome.returns (none, none, some e) := by
  obtain ⟨k, v, hg, hfail⟩ := hf
  obtain ⟨r, hr, e, rfl⟩ := rangeLoop_leave_of_mem (volumeBody rt)
    (fun r => ∃ e, r = Outcome.returns (none, none, some e)) (GoMap.entries fields) ([], [])
    (fun k' v' st hm => volumeBody_shaped rt k' v' st
      (hs k' v' ((mem_entries_iff fields k' v').mp hm)))
    k v ((mem_entries_iff fields k v).mpr hg)
    (volumeBody_never_next rt k v (hs k v hg) hfail)
  exact ⟨e, by simp only [ApiPublic24hVolume, hr]⟩

theorem allMarketsBody_leave {F : Type} (rt : Runtime F) (k : String) (v : JSON F)
    (out : GoMap (OrderBookEntry F))
    (r : Outcome (Option (GoMap (OrderBookEntry F)) × Option Error))
    (h : allMarketsBody rt k v out = Flow.leave r) :
    ∀ m err, r = Outcome.returns (m, some err) → m = none := by
  intro m err hr
  subst hr
  unfold allMarketsBody at h
  split at h <;> cases h
  rfl

theorem orderBook_error_nil {F : Type} (rt : Runtime F) (pair : String)
    (resp : Except Error (JSON F)) (m : Option (GoMap (OrderBookEntry F))) (err : Error)
    (h : ApiPublicOrderBook rt pair resp = Outcome.returns (m, some err)) : m = none := by
  unfold ApiPublicOrderBook at h
  cases resp with
  | error e =>
    cases h
    rfl
  | ok content =>
    simp only at h
    by_cases hp : pair ≠ "all"
    · rw [if_pos hp] at h
      split at h <;> cases h
      rfl
    · rw [if_neg hp] at h
      cases content with
      | obj fields =>
        simp only at h
        cases hl : rangeLoop (allMarketsBody rt) (GoMap.entries fields) [] with
        | next out =>
          rw [hl] at h
          cases h
        | leave r =>
          rw [hl] at h
          exact rangeLoop_leave (allMarketsBody rt)
            (fun r => ∀ m err, r = Outcome.returns (m, some err) → m = none)
            (allMarketsBody_leave rt) _ _ r hl m err h
      | _ => cases h

theorem volumeSubBody_leave {F : Type} (rt : Runtime F) (sk : String) (sv : JSON F)
    (out : GoMap F) (r : Outcome (VolumeResult F))
    (h : volumeSubBody rt sk sv out = Flow.leave r) :
    ∀ t o err, r = Outcome.returns (t, o, some err) → t = none ∧ o = none := by
  intro t o err hr
  subst hr
  unfold volumeSubBody at h
  split at h
  · split at h <;> cases h
    exact ⟨rfl, rfl⟩
  · cases h

theorem volumeBody_leave {F : Type} (rt : Runtime F) (k : String) (v : JSON F)
    (st : GoMap F × GoMap (GoMap F)) (r : Outcome (VolumeResult F))
    (h : volumeBody rt k v st = Flow.leave r) :
    ∀ t o err, r = Outcome.returns (t, o, some err) → t = none ∧ o = none := by
  intro t o err hr
  subst hr
  cases v with
  | str s =>
    cases hp : rt.ParseFloat s with
    | ok x => simp [volumeBody, typeName, hp] at h
    | error e =>
      simp only [volumeBody, typeName, hp, if_true, Flow.leave.injEq,
        Outcome.returns.injEq, Prod.mk.injEq] at h
      exact ⟨h.1.symm, h.2.1.symm⟩
  | obj sub =>
    cases hl : rangeLoop (volumeSubBody rt) (GoMap.entries sub) [] with
    | next o' => simp [volumeBody, typeName, hl] at h
    | leave r' =>
      simp only [volumeBody, typeName, hl, String.reduceEq, if_false, Flow.leave.injEq] at h
      exact rangeLoop_leave (volumeSubBody rt)
        (fun r => ∀ t o err, r = Outcome.returns (t, o, some err) → t = none ∧ o = none)
        (volumeSubBody_leave rt) _ _ r' hl t o err h
  | null => simp [volumeBody, typeName] at h
  | bool b => simp [volumeBody, typeName] at h
  | num x => simp [volumeBody, typeName] at h
  | arr items => simp [volumeBody, typeName] at h

theorem volume_error_nil {F : Type} (rt : Runtime F) (resp : Except Error (JSON F))
    (t : Option (GoMap F)) (o : Option (GoMap (GoMap F))) (err : Error)
    (h : ApiPublic24hVolume rt resp = Outcome.returns (t, o, some err)) :
    t = none ∧ o = none := by
  unfold ApiPublic24hVolume at h
  cases resp with
  | error e =>
    cases h
    exact ⟨rfl, rfl⟩
  | ok content =>
    cases content with
    | obj fields =>
      simp only at h
      cases hl : rangeLoop (volumeBody rt) (GoMap.entries fields) ([], []) with
      | next st =>
        rw [hl] at h
        cases h
      | leave r =>
        rw [hl] at h
        exact rangeLoop_leave (volumeBody rt)
          (fun r => ∀ t o err, r = Outcome.returns (t, o, some err) → t = none ∧ o = none)
          (volumeBody_leave rt) _ _ r hl t o err h
    | _ => cases h

theorem goodRecord_shaped : recordShaped goodRecord := by
  refine ⟨_, rfl, fun k v hg => ?_⟩
  simp only [GoMap.get] at hg
  split_ifs at hg with h1 h2 <;> cases hg
  · subst h1
    refine ⟨fun _ => ⟨_, rfl, fun t ht => ?_⟩, fun h => absurd h (by decide),
      fun h => absurd h (by decide)⟩
    simp only [List.mem_singleton] at ht
    subst ht
    exact ⟨_, _, _, rfl⟩
  · subst h2
    exact ⟨fun h => absurd h (by decide), fun _ => ⟨_, rfl⟩, fun h => absurd h (by decide)⟩

theorem badPriceRecord_shaped : recordShaped badPriceRecord := by
  refine ⟨_, rfl, fun k v hg => ?_⟩
  simp only [GoMap.get] at hg
  split_ifs at hg with h1 h2 <;> cases hg
  · subst h1
    refine ⟨fun _ => ⟨_, rfl, fun t ht => ?_⟩, fun h => absurd h (by decide),
      fun h => absurd h (by decide)⟩
    simp only [List.mem_cons, List.mem_singleton, List.not_mem_nil, or_false] at ht
    rcases ht with rfl | rfl <;> exact ⟨_, _, _, rfl⟩
  · subst h2
    exact ⟨fun h => absurd h (by decide), fun _ => ⟨_, rfl⟩, fun h => absurd h (by decide)⟩

theorem badPriceRecord_fails : recordFails decimalRuntime badPriceRecord :=
  ⟨_, rfl, "asks", _, rfl, Or.inl ⟨Or.inl rfl, _, rfl, _, List.mem_cons_of_mem _
    (List.mem_singleton.mpr rfl), "bad", _, _, rfl, rfl⟩⟩

theorem badPriceMarkets_shaped :
    ∀ k v, GoMap.get badPriceMarkets k = some v → recordShaped v := by
  intro k v hg
  simp only [badPriceMarkets, GoMap.get] at hg
  split_ifs at hg <;> cases hg
  · exact goodRecord_shaped
  · exact badPriceRecord_shaped

theorem badVolume_shaped : volumeShaped badVolume := by
  intro k v hg
  simp only [badVolume, GoMap.get] at hg
  split_ifs at hg <;> cases hg
  · exact Or.inl ⟨_, rfl⟩
  · refine Or.inr ⟨_, rfl, fun sk sv hs => ?_⟩
    simp only [GoMap.get] at hs
    split_ifs at hs
    cases hs
    exact ⟨_, rfl⟩

theorem badVolume_fails : volumeFails decimalRuntime badVolume :=
  ⟨"BTC_LTC", _, rfl, Or.inr ⟨_, "BTC", "bad", _, rfl, rfl, rfl⟩⟩

/-- C15 (as stated, refuted): in the record `{"asks": [7, ["bad", 1164]]}` a ladder price
fails to parse, and the call panics on the number before it: it returns neither the error
nor a nil map. -/
theorem failed_parse_behind_bad_shape_panics :
    recordFails decimalRuntime misshapenRecord
    ∧ ApiPublicOrderBook decimalRuntime "BTC_NXT" (Except.ok misshapenRecord)
        = Outcome.panics Panic.typeAssertion :=
  ⟨⟨_, rfl, "asks", _, rfl, Or.inl ⟨Or.inl rfl, _, rfl, _, List.mem_cons_of_mem _
    (List.mem_singleton.mpr rfl), "bad", _, _, rfl, rfl⟩⟩, rfl⟩

/-- C15 (amended): no partial result on a failed decode. Whenever `ApiPublicOrderBook`
returns an error its map is nil, and whenever `ApiPublic24hVolume` returns an error both its
maps are nil; and for a response of the expected shape in which a ladder price or an
`isFrozen` string (in the single record, or in one market of an `all` response), or a
numeric string of the 24-hour volume, fails to parse, the call does return an error, in
whatever order the members are visited. -/
theorem no_partial_result_on_failed_decode {F : Type} (rt : Runtime F) (pair : String)
    (r : JSON F) (markets fields : GoMap (JSON F)) (hp : pair ≠ "all")
    (hr : recordShaped r) (hrf : recordFails rt r)
    (hm : ∀ k v, GoMap.get markets k = some v → recordShaped v)
    (hmf : ∃ k v, GoMap.get markets k = some v ∧ recordFails rt v)
    (hv : volumeShaped fields) (hvf : volumeFails rt fields) :
    (∃ e, ApiPublicOrderBook rt pair (Except.ok r) = Outcome.returns (none, some e))
    ∧ (∃ e, ApiPublicOrderBook rt "all" (Except.ok (JSON.obj markets))
        = Outcome.returns (none, some e))
    ∧ (∃ e, ApiPublic24hVolume rt (Except.ok (JSON.obj fields))
        = Outcome.returns (none, none, some e))
    ∧ (∀ p resp m err, ApiPublicOrderBook rt p resp = Outcome.returns (m, some err) → m = none)
    ∧ (∀ resp t o err, ApiPublic24hVolume rt resp = Outcome.returns (t, o, some err) →
        t = none ∧ o = none) :=
  ⟨orderBook_fails_single rt pair r hp hr hrf, orderBook_fails_all rt markets hm hmf,
    volume_fails rt fields hv hvf, fun p resp m err h => orderBook_error_nil rt p resp m err h,
    fun resp t o err h => volume_error_nil rt resp t o err h⟩

/-- The instance of the amended C15 at a record with a bad price, at an `all` response
whose second market has it, and at a 24-hour volume with a bad number. -/
theorem no_partial_result_on_failed_decode_witness :
    "BTC_XMR" ≠ "all"
    ∧ recordShaped badPriceRecord ∧ recordFails decimalRuntime badPriceRecord
    ∧ ApiPublicOrderBook decimalRuntime "all" (Except.ok (JSON.obj badPriceMarkets))
        = Outcome.returns (none, some "strconv.ParseFloat: parsing \"bad\": invalid syntax")
    ∧ (∃ e, ApiPublicOrderBook decimalRuntime "BTC_XMR" (Except.ok badPriceRecord)
        = Outcome.returns (none, some e))
    ∧ (∃ e, ApiPublicOrderBook decimalRuntime "all" (Except.ok (JSON.obj badPriceMarkets))
        = Outcome.returns (none, some e))
    ∧ (∃ e, ApiPublic24hVolume decimalRuntime (Except.ok (JSON.obj badVolume))
        = Outcome.returns (none, none, some e)) :=
  have h := no_partial_result_on_failed_decode decimalRuntime "BTC_XMR" badPriceRecord
    badPriceMarkets badVolume (by decide) badPriceRecord_shaped badPriceRecord_fails
    badPriceMarkets_shaped ⟨"BTC_XMR", _, rfl, badPriceRecord_fails⟩ badVolume_shaped
    badVolume_fails
  ⟨by decide, badPriceRecord_shaped, badPriceRecord_fails, rfl, h.1, h.2.1, h.2.2.1⟩

/-! ## Exchange errors, cancelling and construction -/

theorem doPrintf_no_percent (fuel : Nat) (s : List Char) (h : '%' ∉ s) :
    doPrintf (fuel + 1) s = s := by
  have hall : ∀ c ∈ s, (c != '%') = true := by
    intro c hc
    simp only [bne_iff_ne, ne_eq]
    intro e
    exact h (e ▸ hc)
  have h1 : s.dropWhile (fun c => c != '%') = [] := List.dropWhile_eq_nil_iff.mpr hall
  have h2 : s.takeWhile (fun c => c != '%') = s := List.takeWhile_eq_self_iff.mpr hall
  simp only [doPrintf, h1, h2]

/-- A message without a percent sign is the message of the error made from it. -/
theorem fmtErrorf_no_percent (m : String) (h : '%' ∉ m.data) : fmtErrorf m = m := by
  unfold fmtErrorf
  rw [doPrintf_no_percent _ _ h]

/-- C16 (the code at the failing input): the body `{"error": "fee 100% invalid"}` makes
`ApiPrivateCancel` return an error whose message is `fee 100%!i(MISSING)nvalid`, the text
taken as a format; the body `{"error": "Invalid nonce"}`, without a percent sign, gives
the message as it is. -/
theorem cancel_error_text_is_formatted :
    ApiPrivateCancel (Except.ok (errorBody decimalRuntime "fee 100% invalid"))
      = (false, none, some "fee 100%!i(MISSING)nvalid")
    ∧ ApiPrivateCancel (Except.ok (errorBody decimalRuntime "Invalid nonce"))
      = (false, none, some "Invalid nonce") :=
  ⟨by decide, by decide⟩

/-- C17 (the code at the failing input): for the body `{"error": m}`, `ApiPublicOrderBook`
returns for a market other than `all` the map from the market to the all-zero record and no
error, and panics for `all`. -/
theorem orderBook_error_body_not_surfaced {F : Type} (rt : Runtime F) (pair m : String) :
    ApiPublicOrderBook rt pair (Except.ok (JSON.obj [("error", JSON.str m)]))
      = if pair ≠ "all" then
          Outcome.returns (some [(pair, OrderBookEntry.empty rt)], none)
        else Outcome.panics Panic.typeAssertion := by
  by_cases hp : pair ≠ "all"
  · rw [if_pos hp, ApiPublicOrderBook_single rt pair hp]
    rfl
  · rw [if_neg hp]
    have e : pair = "all" := not_not.mp hp
    subst e
    rw [ApiPublicOrderBook_all_one]
    rfl

/-- C18: on a decoded response whose error field is empty, `ApiPrivateCancel` returns the
record and a nil error, and its flag is true exactly when the success flag is 1. -/
theorem cancel_result {F : Type} (success : Int) (amount : F) (message : String) :
    ApiPrivateCancel
        (Except.ok { Success := success, Error := "", Amount := amount, Message := message })
      = (decide (success = 1),
          some { Success := success, Error := "", Amount := amount, Message := message }, none)
    ∧ ((ApiPrivateCancel (Except.ok
          { Success := success, Error := "", Amount := amount, Message := message })).1 = true
        ↔ success = 1) := by
  have h : ApiPrivateCancel
      (Except.ok { Success := success, Error := "", Amount := amount, Message := message })
      = (decide (success = 1),
        some { Success := success, Error := "", Amount := amount, Message := message },
        none) := by
    simp only [ApiPrivateCancel, ne_eq, not_true_eq_false, if_false, Prod.mk.injEq, and_true,
      decide_eq_decide]
    exact eq_comm
  refine ⟨h, ?_⟩
  rw [h]
  simp

/-- C19 (as stated, refuted): `New("key", "")` returns a client with the empty secret, and
a signed call of that client signs with the empty secret. -/
theorem empty_secret_client_signs :
    New "key" "" = { Key := "key", secret := "", UserAgent := "poloniex-api" }
    ∧ GoMap.get (query (New "key" "") 1000 "https://poloniex.com/tradingApi"
        [("command", ["returnBalances"])] true).1.headers "Sign"
      = some (createPoloniexSignature
          [("command", ["returnBalances"]), ("nonce", ["1"])] "") := by
  refine ⟨rfl, ?_⟩
  rw [query_headers _ _ _ _ _ _ (by decide) (by decide)]
  rfl

/-- C19 (amended): construction never fails and checks nothing: for every key and secret,
the empty secret included, `New` returns the client holding them, and a signed call of a
client with the empty secret sends as `Sign` the signature under the empty secret. -/
theorem New_accepts_every_secret (key secret : String) (now : Int) (url : String)
    (params : Values) :
    New key secret = { Key := key, secret := secret, UserAgent := "poloniex-api" }
    ∧ GoMap.get (query (New key "") now url params true).1.headers "Sign"
      = some (createPoloniexSignature
          (Values.Set params "nonce" (sprintfD (Int.tdiv now 1000))) "") := by
  refine ⟨rfl, ?_⟩
  rw [query_headers _ _ _ _ _ _ (by decide) (by decide)]
  rfl

/-! ## Order options -/

theorem get_Set (m : Values) (k v k' : String) :
    GoMap.get (Values.Set m k v) k' = if k' = k then some [v] else GoMap.get m k' := by
  by_cases h : k' = k
  · rw [if_pos h, h]
    exact GoMap.get_set_self _ _ _
  · rw [if_neg h]
    exact GoMap.get_set_of_ne _ _ _ _ h

theorem buy_option {F : Type} (ft : FloatText F) (currencyPair : String) (rate amount : F)
    (opts : GoMap Bool) (name : String)
    (h : name = "fillOrKill" ∨ name = "immediateOrCancel" ∨ name = "postOnly") :
    GoMap.get (ApiPrivateBuy ft currencyPair rate amount opts) name
      = if (GoMap.get opts name).isSome then some ["1"] else none := by
  unfold ApiPrivateBuy
  rcases h with rfl | rfl | rfl <;> simp only [] <;> split_ifs <;>
    simp [get_Set, GoMap.get] at *

theorem sell_option {F : Type} (ft : FloatText F) (currencyPair : String) (rate amount : F)
    (opts : GoMap Bool) (name : String)
    (h : name = "fillOrKill" ∨ name = "immediateOrCancel" ∨ name = "postOnly") :
    GoMap.get (ApiPrivateSell ft currencyPair rate amount opts) name
      = if (GoMap.get opts name).isSome then some ["1"] else none := by
  unfold ApiPrivateSell
  rcases h with rfl | rfl | rfl <;> simp only [] <;> split_ifs <;>
    simp [get_Set, GoMap.get] at *

theorem move_option {F : Type} (ft : FloatText F) (orderNumber : Int) (rate amount : F)
    (opts : GoMap Bool) (name : String)
    (h : name = "fillOrKill" ∨ name = "immediateOrCancel" ∨ name = "postOnly") :
    GoMap.get (ApiPrivateMoveOrder ft orderNumber rate amount opts) name
      = if name ≠ "fillOrKill" ∧ (GoMap.get opts name).isSome then some ["1"] else none := by
  unfold ApiPrivateMoveOrder
  rcases h with rfl | rfl | rfl <;> simp only [] <;> split_ifs <;>
    simp_all [get_Set, GoMap.get]

/-- C21: the order options are decided by the presence of the key in `opts`, not by the
boolean it maps to. `ApiPrivateBuy` and `ApiPrivateSell` set `fillOrKill`,
`immediateOrCancel` and `postOnly` to `1` exactly when the name is a key of `opts` and leave
the parameter out otherwise; `ApiPrivateMoveOrder` does so for `immediateOrCancel` and
`postOnly` and never sets `fillOrKill`; with `opts = {fillOrKill: value}` the parameter
`fillOrKill=1` is sent whatever `value` is; and the signing step leaves the three
parameters as they were built. -/
theorem order_options_by_key_presence {F : Type} (ft : FloatText F) (api : PoloniexApi)
    (now : Int) (currencyPair : String) (orderNumber : Int) (rate amount : F)
    (opts : GoMap Bool) (value : Bool) (params : Values) :
    (GoMap.get (ApiPrivateBuy ft currencyPair rate amount opts) "fillOrKill"
        = (if (GoMap.get opts "fillOrKill").isSome then some ["1"] else none)
      ∧ GoMap.get (ApiPrivateBuy ft currencyPair rate amount opts) "immediateOrCancel"
        = (if (GoMap.get opts "immediateOrCancel").isSome then some ["1"] else none)
      ∧ GoMap.get (ApiPrivateBuy ft currencyPair rate amount opts) "postOnly"
        = (if (GoMap.get opts "postOnly").isSome then some ["1"] else none))
    ∧ (GoMap.get (ApiPrivateSell ft currencyPair rate amount opts) "fillOrKill"
        = (if (GoMap.get opts "fillOrKill").isSome then some ["1"] else none)
      ∧ GoMap.get (ApiPrivateSell ft currencyPair rate amount opts) "immediateOrCancel"
        = (if (GoMap.get opts "immediateOrCancel").isSome then some ["1"] else none)
      ∧ GoMap.get (ApiPrivateSell ft currencyPair rate amount opts) "postOnly"
        = (if (GoMap.get opts "postOnly").isSome then some ["1"] else none))
    ∧ (GoMap.get (ApiPrivateMoveOrder ft orderNumber rate amount opts) "immediateOrCancel"
        = (if (GoMap.get opts "immediateOrCancel").isSome then some ["1"] else none)
      ∧ GoMap.get (ApiPrivateMoveOrder ft orderNumber rate amount opts) "postOnly"
        = (if (GoMap.get opts "postOnly").isSome then some ["1"] else none)
      ∧ GoMap.get (ApiPrivateMoveOrder ft orderNumber rate amount opts) "fillOrKill" = none)
    ∧ GoMap.get (ApiPrivateBuy ft currencyPair rate amount [("fillOrKill", value)])
        "fillOrKill" = some ["1"]
    ∧ (GoMap.get (query api now URL_PRIVATE params true).2 "fillOrKill"
        = GoMap.get params "fillOrKill"
      ∧ GoMap.get (query api now URL_PRIVATE params true).2 "immediateOrCancel"
        = GoMap.get params "immediateOrCancel"
      ∧ GoMap.get (query api now URL_PRIVATE params true).2 "postOnly"
        = GoMap.get params "postOnly") := by
  refine ⟨⟨?_, ?_, ?_⟩, ⟨?_, ?_, ?_⟩, ⟨?_, ?_, ?_⟩, ?_, ⟨?_, ?_, ?_⟩⟩
  · exact buy_option ft currencyPair rate amount opts _ (Or.inl rfl)
  · exact buy_option ft currencyPair rate amount opts _ (Or.inr (Or.inl rfl))
  · exact buy_option ft currencyPair rate amount opts _ (Or.inr (Or.inr rfl))
  · exact sell_option ft currencyPair rate amount opts _ (Or.inl rfl)
  · exact sell_option ft currencyPair rate amount opts _ (Or.inr (Or.inl rfl))
  · exact sell_option ft currencyPair rate amount opts _ (Or.inr (Or.inr rfl))
  · rw [move_option ft orderNumber rate amount opts _ (Or.inr (Or.inl rfl))]
    simp
  · rw [move_option ft orderNumber rate amount opts _ (Or.inr (Or.inr rfl))]
    simp
  · rw [move_option ft orderNumber rate amount opts _ (Or.inl rfl)]
    simp
  · rw [buy_option ft currencyPair rate amount _ _ (Or.inl rfl)]
    simp [GoMap.get]
  · rw [query_params_signed, get_Set, if_neg (by decide)]
  · rw [query_params_signed, get_Set, if_neg (by decide)]
  · rw [query_params_signed, get_Set, if_neg (by decide)]

/-- The body of the signed request of a buy order placed with `opts = {fillOrKill: false}`
carries `fillOrKill=1`. -/
theorem buy_with_false_option_body :
    (query (New "key" "secret") 1700000000123456789 URL_PRIVATE
        (ApiPrivateBuy sampleFloatText "XMR_LTC" 1 42 [("fillOrKill", false)]) true).1.body
      = some "amount=42&command=buy&currencyPair=XMR_LTC&fillOrKill=1&nonce=1700000000123456&rate=1" := by
  rfl

end Poloniex
